import Mathlib

/-!
Verification of the konstellio schema-diff engine and migration executor
(`getSchemaDiff`, `executeSchemaMigration`, `schemaToSchemaDescription`,
`databaseDescriptionToSchemaDescription`, `matchLocalizedHandle` and the
`mapStringToColumnType` / `mapStringToIndexType` / `mapColumnTypeToFieldType`
helpers).  The TypeScript source is translated into executable Lean
definitions; fallible code (`throw`) becomes `Except String`.
-/

set_option autoImplicit false

namespace Konstellio

/-- Sort direction of an index column reference (`'asc' | 'desc'`). -/
inductive Direction where
  | asc
  | desc
  deriving DecidableEq, Repr

/-- Column types of the `@konstellio/db` `ColumnType` enumeration, as consumed by
the migration code (`mapStringToColumnType`, `mapColumnTypeToFieldType`). -/
inductive ColumnType where
  | Boolean
  | Int8
  | Int16
  | Int32
  | Int64
  | UInt64
  | Float32
  | Float64
  | Text
  | Blob
  | Date
  | DateTime
  deriving DecidableEq, Repr

/-- Index types of the `@konstellio/db` `IndexType` enumeration
(`'primary' | 'unique' | 'index'`). -/
inductive IndexType where
  | Primary
  | Unique
  | Index
  deriving DecidableEq, Repr

/-- Modelled from the spec: compatibility flags are independently-settable bits
(`Equal`, `Castable`, `Comparable`).  The `Compare` enumeration of
`@konstellio/db` is not among the provided sources; the diff engine only tests
`flags & Compare.Castable`, so only the `Castable` bit is load-bearing. -/
def Compare.Equal : Nat := 1

/-- Modelled from the spec: the `Castable` flag bit, tested by `getSchemaDiff`
via `(compareTypes(a, b) & Compare.Castable) === 0`. -/
def Compare.Castable : Nat := 2

/-- Modelled from the spec: the `Comparable` flag bit. -/
def Compare.Comparable : Nat := 4

/-- Character class `[a-zA-Z0-9_-]` of the base part of a localized handle. -/
def isBaseChar (c : Char) : Bool :=
  c.isAlphanum || c == '_' || c == '-'

/-- Locale-code pattern `[a-z]{2}(-[a-zA-Z]{2})?` (case-insensitive flag `i`):
two letters, optionally followed by a hyphen and two more letters. -/
def isLocaleCode : List Char → Bool
  | [a, b] => a.isAlpha && b.isAlpha
  | [a, b, h, d, e] => a.isAlpha && b.isAlpha && h == '-' && d.isAlpha && e.isAlpha
  | _ => false

/-- Attempt to split `s` as `base ++ "__" ++ locale` with the base of length
`k`; used to realize the anchored regex of `matchLocalizedHandle`. -/
def localizedSplitAt (s : List Char) (k : Nat) : Option (List Char × List Char) :=
  let b := s.take k
  match s.drop k with
  | '_' :: '_' :: c =>
    if !b.isEmpty && b.all isBaseChar && isLocaleCode c then some (b, c) else none
  | _ => none

/-- Try base lengths from `k` downwards; the regex quantifier
`([a-zA-Z0-9_-]+)` is greedy, so the longest base that still leaves a valid
`__locale` suffix wins. -/
def localizedSplitDown (s : List Char) : Nat → Option (List Char × List Char)
  | 0 => none
  | k + 1 =>
    match localizedSplitAt s (k + 1) with
    | some r => some r
    | none => localizedSplitDown s k

/-- Translation of `matchLocalizedHandle`: match
`/^([a-zA-Z0-9_-]+)__([a-z]{2}(-[a-zA-Z]{2})?)$/i` against `handle`,
returning the captured `(base, locale)` on success. -/
def matchLocalizedHandle (handle : String) : Option (String × String) :=
  (localizedSplitDown handle.toList handle.toList.length).map
    (fun p => (String.mk p.1, String.mk p.2))

/-- A column of a `SchemaDescription` (`{ handle, type-as-string }`). -/
structure SchemaDescriptionColumn where
  handle : String
  type : String
  deriving DecidableEq, Repr

/-- An index of a `SchemaDescription`; `columns` is a JavaScript object
mapping field handle to direction, modelled as an insertion-ordered
association list. -/
structure SchemaDescriptionIndex where
  handle : String
  type : String
  columns : List (String × Direction)
  deriving DecidableEq, Repr

/-- Backend-neutral description of one collection. -/
structure SchemaDescription where
  handle : String
  columns : List SchemaDescriptionColumn
  indexes : List SchemaDescriptionIndex
  deriving DecidableEq, Repr

/-- One diff operation produced by `getSchemaDiff`. -/
inductive SchemaDiff where
  | addCollection (collection : SchemaDescription)
  | addColumn (collection : SchemaDescription) (column : SchemaDescriptionColumn)
      (copyColumn : List String)
  | dropColumn (collection : SchemaDescription) (column : SchemaDescriptionColumn)
  | alterColumn (collection : SchemaDescription) (column : SchemaDescriptionColumn)
      (type : String)
  | addIndex (collection : SchemaDescription) (index : SchemaDescriptionIndex)
  | dropIndex (collection : SchemaDescription) (index : SchemaDescriptionIndex)
  deriving DecidableEq, Repr

/-- A declared logical field as supplied by the schema source
(`{ handle, type, localized }`). -/
structure Field where
  handle : String
  type : String
  localized : Bool
  deriving DecidableEq, Repr

/-- A declared logical index (`{ handle, type, fields }`), the `fields` object
modelled as an insertion-ordered association list. -/
structure SchemaIndexDecl where
  handle : String
  type : String
  fields : List (String × Direction)
  deriving DecidableEq, Repr

/-- A declared logical schema for one collection. -/
structure Schema where
  handle : String
  fields : List Field
  indexes : List SchemaIndexDecl
  deriving DecidableEq, Repr

/-- JavaScript object-property assignment `obj[k] = v`: if the key is present
its value is updated in place (first-insertion position kept), otherwise the
pair is appended. -/
def objSet (m : List (String × Direction)) (k : String) (v : Direction) :
    List (String × Direction) :=
  match m with
  | [] => [(k, v)]
  | (k', v') :: rest => if k' == k then (k, v) :: rest else (k', v') :: objSet rest k v

/-- Translation of `mapStringToColumnType`; unknown field types throw. -/
def mapStringToColumnType (type : String) : Except String ColumnType :=
  if type == "int" then .ok .Int64
  else if type == "float" then .ok .Float64
  else if type == "text" || type == "password" || type == "slug" || type == "html" then
    .ok .Text
  else if type == "date" then .ok .DateTime
  else if type == "datetime" then .ok .DateTime
  else .error ("Unknown field type " ++ type ++ ".")

/-- Translation of `mapStringToIndexType`; unknown index types throw. -/
def mapStringToIndexType (type : String) : Except String IndexType :=
  if type == "primary" then .ok .Primary
  else if type == "unique" then .ok .Unique
  else if type == "index" then .ok .Index
  else .error ("Unknown index type " ++ type ++ ".")

/-- Translation of `mapColumnTypeToFieldType`; `Boolean` and `UInt64` fall to
the default case and throw. -/
def mapColumnTypeToFieldType (type : ColumnType) : Except String String :=
  match type with
  | .Int8 | .Int16 | .Int32 | .Int64 => .ok "int"
  | .Float32 | .Float64 => .ok "float"
  | .Text => .ok "text"
  | .Date => .ok "date"
  | .DateTime => .ok "datetime"
  | .Blob => .ok "blob"
  | .Boolean | .UInt64 => .error "Unknown field type."

/-- Translation of the `columns` reducer of `schemaToSchemaDescription`:
a relation field produces no column, a localized field produces one column
per locale with handle `h__code`, any other field is copied verbatim. -/
def schemaColumnsStep (locales : List String) (acc : List SchemaDescriptionColumn)
    (field : Field) : List SchemaDescriptionColumn :=
  if field.type == "relation" then acc
  else if field.localized then
    acc ++ locales.map (fun code => ⟨field.handle ++ "__" ++ code, field.type⟩)
  else acc ++ [⟨field.handle, field.type⟩]

/-- Localization test of one declared index in `schemaToSchemaDescription`:
`localized = localized || (field !== undefined && field.localized === true)`
folded over the index's field references. -/
def indexIsLocalized (fields : List Field) (index : SchemaIndexDecl) : Bool :=
  index.fields.foldl
    (fun localized p =>
      localized ||
        (match fields.find? (fun f => f.handle == p.1) with
         | some f => f.localized
         | none => false))
    false

/-- The `columns` reducer of one expanded localized index: each field reference
is locale-qualified when its declared field is localized, otherwise kept; the
accumulator is a JavaScript object (`objSet`). -/
def localizeIndexFields (fields : List Field) (code : String)
    (idxFields : List (String × Direction)) : List (String × Direction) :=
  idxFields.foldl
    (fun acc p =>
      match fields.find? (fun f => f.handle == p.1) with
      | some f =>
        if f.localized then objSet acc (p.1 ++ "__" ++ code) p.2
        else objSet acc p.1 p.2
      | none => objSet acc p.1 p.2)
    []

/-- Translation of the `indexes` reducer of `schemaToSchemaDescription`. -/
def schemaIndexesStep (locales : List String) (fields : List Field)
    (acc : List SchemaDescriptionIndex) (index : SchemaIndexDecl) :
    List SchemaDescriptionIndex :=
  if indexIsLocalized fields index then
    acc ++ locales.map (fun code =>
      ⟨index.handle ++ "__" ++ code, index.type, localizeIndexFields fields code index.fields⟩)
  else acc ++ [⟨index.handle, index.type, index.fields⟩]

/-- Translation of `schemaToSchemaDescription` (locale expansion of a declared
schema); `locales` is `Object.keys(context.locales)`. -/
def schemaToSchemaDescription (locales : List String) (schema : Schema) :
    SchemaDescription :=
  { handle := schema.handle
    columns := schema.fields.foldl (schemaColumnsStep locales) []
    indexes := schema.indexes.foldl (schemaIndexesStep locales schema.fields) [] }

/-- A column of a live `DescribeCollection` result (`getName`, `getType`). -/
structure DbColumn where
  name : String
  type : ColumnType
  deriving DecidableEq, Repr

/-- A sortable field of a live index (`{ name, direction? }`); an absent
direction defaults to `'asc'` in the collapse. -/
structure DbSortableField where
  name : String
  direction : Option Direction
  deriving DecidableEq, Repr

/-- A live index of a `DescribeCollection` result (`getName`, `getType`,
`getColumns`); the index type is the string value of the `IndexType` string
enumeration. -/
structure DbIndex where
  name : String
  type : String
  columns : List DbSortableField
  deriving DecidableEq, Repr

/-- A live `DescribeCollectionQueryResult`. -/
structure DbDescription where
  collection : String
  columns : List DbColumn
  indexes : List DbIndex
  deriving DecidableEq, Repr

/-- Collapse of one live index in `databaseDescriptionToSchemaDescription`:
when any column matches the localized pattern, every matching column reference
is replaced by its base handle; the index handle itself is kept verbatim. -/
def collapseDbIndex (index : DbIndex) : SchemaDescriptionIndex :=
  let localized := index.columns.foldl
    (fun localized column => localized || (matchLocalizedHandle column.name).isSome) false
  { handle := index.name
    type := index.type
    columns := index.columns.foldl
      (fun acc field =>
        if localized then
          match matchLocalizedHandle field.name with
          | some m => objSet acc m.1 (field.direction.getD .asc)
          | none => objSet acc field.name (field.direction.getD .asc)
        else objSet acc field.name (field.direction.getD .asc))
      [] }

/-- Column translation of `databaseDescriptionToSchemaDescription`
(`mapColumnTypeToFieldType` applied to each live column, in order). -/
def collapseDbColumns : List DbColumn → Except String (List SchemaDescriptionColumn)
  | [] => .ok []
  | c :: rest =>
    match mapColumnTypeToFieldType c.type with
    | .error e => .error e
    | .ok t =>
      match collapseDbColumns rest with
      | .error e => .error e
      | .ok cs => .ok (⟨c.name, t⟩ :: cs)

/-- Translation of `databaseDescriptionToSchemaDescription`; the `locales`
parameter is computed but unused in the source body, and column handles are
kept verbatim (no locale collapse happens on columns). -/
def databaseDescriptionToSchemaDescription (locales : List String)
    (description : DbDescription) : Except String SchemaDescription :=
  let _ := locales
  match collapseDbColumns description.columns with
  | .error e => .error e
  | .ok cols =>
    .ok { handle := description.collection
          columns := cols
          indexes := description.indexes.map collapseDbIndex }

/-- The backend driver facilities consumed by `getSchemaDiff`:
`collectionExists` / `describeCollection` stand for the corresponding
`database.execute` calls, `compareTypes` is the backend's flag-set comparison. -/
structure Database where
  collectionExists : String → Bool
  describeCollection : String → DbDescription
  compareTypes : ColumnType → ColumnType → Nat

/-- Translation of the first `forEach` over the live columns in
`getSchemaDiff`: emit `drop_column` for a live column absent from the declared
description; for a matched column, emit `alter_column` when the comparison of
the mapped types lacks the `Castable` flag, and mute the handle either way.
Returns the accumulated `mutedFields` and the emitted diffs, in order. -/
def columnPass (db : Database) (sd : SchemaDescription) :
    List SchemaDescriptionColumn → List String →
    Except String (List String × List SchemaDiff)
  | [], muted => .ok (muted, [])
  | dbColumn :: rest, muted =>
    match sd.columns.find? (fun column => column.handle == dbColumn.handle) with
    | some column =>
      match mapStringToColumnType column.type, mapStringToColumnType dbColumn.type with
      | .ok a, .ok b =>
        if db.compareTypes a b &&& Compare.Castable == 0 then
          match columnPass db sd rest (muted ++ [column.handle]) with
          | .ok r => .ok (r.1, .alterColumn sd dbColumn column.type :: r.2)
          | .error e => .error e
        else
          columnPass db sd rest (muted ++ [column.handle])
      | .error e, _ => .error e
      | .ok _, .error e => .error e
    | none =>
      match columnPass db sd rest muted with
      | .ok r => .ok (r.1, .dropColumn sd dbColumn :: r.2)
      | .error e => .error e

/-- Copy-candidate list attached to an `add_column` diff: when the new handle
matches the localized pattern, the live handles sharing the same base;
otherwise all live handles. -/
def copyCandidates (dbColumns : List SchemaDescriptionColumn) (handle : String) :
    List String :=
  match matchLocalizedHandle handle with
  | some m =>
    (dbColumns.map (fun c => c.handle)).filter
      (fun h =>
        match matchLocalizedHandle h with
        | some m2 => m2.1 == m.1
        | none => false)
  | none => dbColumns.map (fun c => c.handle)

/-- Translation of the second `forEach` over the declared columns in
`getSchemaDiff`: every declared column whose handle was not muted yields an
`add_column` diff carrying its copy candidates. -/
def addColumnDiffs (sd : SchemaDescription) (dbColumns : List SchemaDescriptionColumn)
    (mutedFields : List String) : List SchemaDiff :=
  sd.columns.filterMap
    (fun column =>
      if mutedFields.contains column.handle then none
      else some (.addColumn sd column (copyCandidates dbColumns column.handle)))

/-- Translation of the `forEach` over the live indexes in `getSchemaDiff`:
a live index absent by handle from the declared description yields a
`drop_index` diff; every live index handle is muted. -/
def indexDropDiffs (sd : SchemaDescription) (dbIndexes : List SchemaDescriptionIndex) :
    List SchemaDiff :=
  dbIndexes.filterMap
    (fun dbIndex =>
      if (sd.indexes.find? (fun index => index.handle == dbIndex.handle)).isSome then none
      else some (.dropIndex sd dbIndex))

/-- The `mutedIndexes` list after the live-index pass: both branches of the
source `forEach` push the live index handle, so every live handle is muted. -/
def mutedIndexesOf (dbIndexes : List SchemaDescriptionIndex) : List String :=
  dbIndexes.map (fun i => i.handle)

/-- Translation of the final `forEach` over the declared indexes in
`getSchemaDiff`: every declared index whose handle was not muted yields an
`add_index` diff. -/
def indexAddDiffs (sd : SchemaDescription) (mutedIndexes : List String) :
    List SchemaDiff :=
  sd.indexes.filterMap
    (fun index =>
      if mutedIndexes.contains index.handle then none
      else some (.addIndex sd index))

/-- Translation of one iteration of the loop of `getSchemaDiff` for a single
declared schema: either one `add_collection` diff (collection missing in the
backend) or the four column/index passes against the collapsed live
description. -/
def diffOne (db : Database) (locales : List String) (schema : Schema) :
    Except String (List SchemaDiff) :=
  let sd := schemaToSchemaDescription locales schema
  if db.collectionExists schema.handle then
    match databaseDescriptionToSchemaDescription locales (db.describeCollection schema.handle) with
    | .error e => .error e
    | .ok dbsd =>
      match columnPass db sd dbsd.columns [] with
      | .error e => .error e
      | .ok r =>
        .ok (r.2 ++ addColumnDiffs sd dbsd.columns r.1 ++
          indexDropDiffs sd dbsd.indexes ++ indexAddDiffs sd (mutedIndexesOf dbsd.indexes))
  else
    .ok [.addCollection sd]

/-- Translation of `getSchemaDiff`: the diffs of each declared schema,
concatenated in order. -/
def getSchemaDiff (db : Database) (locales : List String) :
    List Schema → Except String (List SchemaDiff)
  | [] => .ok []
  | schema :: rest =>
    match diffOne db locales schema with
    | .error e => .error e
    | .ok ds =>
      match getSchemaDiff db locales rest with
      | .error e => .error e
      | .ok more => .ok (ds ++ more)

/-- A column definition built by `q.column(handle, type)`. -/
structure Column where
  name : String
  type : ColumnType
  deriving DecidableEq, Repr

/-- An index definition built by `q.index(handle, type).columns(...)`; the
column list keeps the `(field, direction)` pairs in order. -/
structure IndexDef where
  handle : String
  type : IndexType
  columns : List (String × Direction)
  deriving DecidableEq, Repr

/-- A `CreateCollection` query built by
`q.createCollection(handle).columns(...).indexes(...)`. -/
structure CreateCollectionQuery where
  handle : String
  columns : List Column
  indexes : List IndexDef
  deriving DecidableEq, Repr

/-- Modelled from the spec: the `@konstellio/db` implementation of
`AlterCollectionQuery` is not among the provided sources.  Per the spec, the
grouped migration query aggregates its sub-operations with the enumeration
order add-column(s) → alter-column(s) → drop-column(s) → add-index(es) →
drop-index(es); the builder methods below each append to the corresponding
group. -/
structure AlterCollectionQuery where
  handle : String
  addColumns : List (Column × Option String)
  alterColumns : List (String × Column)
  dropColumns : List String
  addIndexes : List IndexDef
  dropIndexes : List String
  deriving DecidableEq, Repr

/-- Fresh query built by `q.alterCollection(handle)`. -/
def alterCollection (handle : String) : AlterCollectionQuery :=
  ⟨handle, [], [], [], [], []⟩

/-- Builder `addColumn(column, copy?)`. -/
def AlterCollectionQuery.addColumn (q : AlterCollectionQuery) (c : Column)
    (copy : Option String) : AlterCollectionQuery :=
  { q with addColumns := q.addColumns ++ [(c, copy)] }

/-- Builder `alterColumn(oldName, column)`. -/
def AlterCollectionQuery.alterColumn (q : AlterCollectionQuery) (oldName : String)
    (c : Column) : AlterCollectionQuery :=
  { q with alterColumns := q.alterColumns ++ [(oldName, c)] }

/-- Builder `dropColumn(name)`. -/
def AlterCollectionQuery.dropColumn (q : AlterCollectionQuery) (name : String) :
    AlterCollectionQuery :=
  { q with dropColumns := q.dropColumns ++ [name] }

/-- Builder `addIndex(index)`. -/
def AlterCollectionQuery.addIndex (q : AlterCollectionQuery) (i : IndexDef) :
    AlterCollectionQuery :=
  { q with addIndexes := q.addIndexes ++ [i] }

/-- Builder `dropIndex(name)`. -/
def AlterCollectionQuery.dropIndex (q : AlterCollectionQuery) (name : String) :
    AlterCollectionQuery :=
  { q with dropIndexes := q.dropIndexes ++ [name] }

/-- One sub-operation of an `AlterCollection` query. -/
inductive AlterSubOp where
  | addColumn (c : Column) (copy : Option String)
  | alterColumn (oldName : String) (c : Column)
  | dropColumn (name : String)
  | addIndex (i : IndexDef)
  | dropIndex (name : String)
  deriving DecidableEq, Repr

/-- Modelled from the spec: the sub-operations of the grouped query, listed
add-column(s) → alter-column(s) → drop-column(s) → add-index(es) →
drop-index(es). -/
def AlterCollectionQuery.subOperations (q : AlterCollectionQuery) : List AlterSubOp :=
  q.addColumns.map (fun p => .addColumn p.1 p.2) ++
  q.alterColumns.map (fun p => .alterColumn p.1 p.2) ++
  q.dropColumns.map (fun n => .dropColumn n) ++
  q.addIndexes.map (fun i => .addIndex i) ++
  q.dropIndexes.map (fun n => .dropIndex n)

/-- Kind rank of a sub-operation, in the contractual enumeration order. -/
def AlterSubOp.rank : AlterSubOp → Nat
  | .addColumn _ _ => 0
  | .alterColumn _ _ => 1
  | .dropColumn _ => 2
  | .addIndex _ => 3
  | .dropIndex _ => 4

/-- JavaScript `Map.get`: the value stored under `k`, if any. -/
def mapGet (m : List (String × AlterCollectionQuery)) (k : String) :
    Option AlterCollectionQuery :=
  (m.find? (fun p => p.1 == k)).map (fun p => p.2)

/-- JavaScript `Map.set`: update in place when the key is present (insertion
position kept), otherwise append. -/
def mapSet (m : List (String × AlterCollectionQuery)) (k : String)
    (v : AlterCollectionQuery) : List (String × AlterCollectionQuery) :=
  match m with
  | [] => [(k, v)]
  | (k', v') :: rest => if k' == k then (k, v) :: rest else (k', v') :: mapSet rest k v

/-- The `if (alterCollections.has(h) === false) alterCollections.set(h,
q.alterCollection(h))` idiom of `executeSchemaMigration`. -/
def ensureAlter (m : List (String × AlterCollectionQuery)) (h : String) :
    List (String × AlterCollectionQuery) :=
  if (mapGet m h).isSome then m else mapSet m h (alterCollection h)

/-- The `alterCollections.get(h)!` access, after the entry was ensured. -/
def getAlter (m : List (String × AlterCollectionQuery)) (h : String) :
    AlterCollectionQuery :=
  (mapGet m h).getD (alterCollection h)

/-- Mutable state of the `executeSchemaMigration` loop: the batched
`CreateCollection` queries, the per-collection `AlterCollection` map (a
JavaScript `Map`, insertion-ordered), the never-extended `muteNewColumn`
list, and the remaining answers of the interactive-choice collaborator
(`none` models a prompt that throws; an exhausted list also models a failing
prompt). -/
structure MigState where
  createCollections : List CreateCollectionQuery
  alterCollections : List (String × AlterCollectionQuery)
  muteNewColumn : List String
  answers : List (Option String)
  deriving DecidableEq, Repr

/-- Initial migration state. -/
def initState (answers : List (Option String)) : MigState :=
  ⟨[], [], [], answers⟩

/-- The `q.column` mapping inside the `add_collection` branch, per column
(`mapStringToColumnType` may throw). -/
def buildCreateColumns : List SchemaDescriptionColumn → Except String (List Column)
  | [] => .ok []
  | c :: rest =>
    match mapStringToColumnType c.type with
    | .error e => .error e
    | .ok t =>
      match buildCreateColumns rest with
      | .error e => .error e
      | .ok cs => .ok (⟨c.handle, t⟩ :: cs)

/-- The `q.index` mapping inside the `add_collection` branch, per index
(`mapStringToIndexType` may throw); the `q.sort` list keeps the
`(field, direction)` pairs of the description in order. -/
def buildCreateIndexes : List SchemaDescriptionIndex → Except String (List IndexDef)
  | [] => .ok []
  | i :: rest =>
    match mapStringToIndexType i.type with
    | .error e => .error e
    | .ok t =>
      match buildCreateIndexes rest with
      | .error e => .error e
      | .ok is => .ok (⟨i.handle, t, i.columns⟩ :: is)

/-- Translation of one iteration of the diff loop of
`executeSchemaMigration`.  `interactive` is `stdin && stdout`; a prompt
consumes the head of `answers`, an exhausted or throwing prompt and the
`'abort'` key all abort the migration. -/
def migStep (interactive : Bool) (st : MigState) : SchemaDiff → Except String MigState
  | .addCollection coll =>
    match buildCreateColumns coll.columns with
    | .error e => .error e
    | .ok cols =>
      match buildCreateIndexes coll.indexes with
      | .error e => .error e
      | .ok idxs =>
        .ok { st with
          createCollections := st.createCollections ++ [⟨coll.handle, cols, idxs⟩] }
  | .addColumn coll column copyColumn =>
    let collectionHandle := coll.handle
    let columnName := collectionHandle ++ "." ++ column.handle
    if st.muteNewColumn.contains columnName then .ok st
    else
      let m := ensureAlter st.alterCollections collectionHandle
      let resolved : Except String (Option String × List (Option String)) :=
        if copyColumn.isEmpty then .ok (none, st.answers)
        else if interactive then
          match st.answers with
          | [] => .error "User aborted migration."
          | none :: _ => .error "User aborted migration."
          | some a :: rest =>
            if a == "abort" then .error "User aborted migration."
            else if a == "empty" then .ok (none, rest)
            else .ok (some a, rest)
        else
          .error "Schema has some new additions that requires your intervention. Please use a TTY terminal."
      match resolved with
      | .error e => .error e
      | .ok (choice, rest) =>
        match mapStringToColumnType column.type with
        | .error e => .error e
        | .ok t =>
          .ok { st with
            alterCollections :=
              mapSet m collectionHandle
                ((getAlter m collectionHandle).addColumn ⟨column.handle, t⟩ choice)
            answers := rest }
  | .alterColumn coll column type =>
    let collectionHandle := coll.handle
    let m := ensureAlter st.alterCollections collectionHandle
    match mapStringToColumnType type with
    | .error e => .error e
    | .ok t =>
      .ok { st with
        alterCollections :=
          mapSet m collectionHandle
            ((getAlter m collectionHandle).alterColumn column.handle ⟨column.handle, t⟩) }
  | .dropColumn coll column =>
    if interactive then
      match st.answers with
      | [] => .error "User aborted migration."
      | none :: _ => .error "User aborted migration."
      | some a :: rest =>
        if a == "abort" then .error "User aborted migration."
        else
          let collectionHandle := coll.handle
          let m := ensureAlter st.alterCollections collectionHandle
          .ok { st with
            alterCollections :=
              mapSet m collectionHandle
                ((getAlter m collectionHandle).dropColumn column.handle)
            answers := rest }
    else
      .error "Schema has some new deletions that requires your intervention. Please use a TTY terminal."
  | .addIndex coll index =>
    let collectionHandle := coll.handle
    let m := ensureAlter st.alterCollections collectionHandle
    match mapStringToIndexType index.type with
    | .error e => .error e
    | .ok t =>
      .ok { st with
        alterCollections :=
          mapSet m collectionHandle
            ((getAlter m collectionHandle).addIndex ⟨index.handle, t, index.columns⟩) }
  | .dropIndex coll index =>
    let collectionHandle := coll.handle
    let m := ensureAlter st.alterCollections collectionHandle
    .ok { st with
      alterCollections :=
        mapSet m collectionHandle
          ((getAlter m collectionHandle).dropIndex index.handle) }

/-- The diff loop of `executeSchemaMigration`, in order.  The source first
runs `diffs.sort((a, b) => 0)`; a stable sort under the constant-zero
comparator leaves the list unchanged, so the loop processes `diffs` as
given. -/
def migLoop (interactive : Bool) (st : MigState) : List SchemaDiff → Except String MigState
  | [] => .ok st
  | diff :: rest =>
    match migStep interactive st diff with
    | .error e => .error e
    | .ok st' => migLoop interactive st' rest

/-- One batched query dispatched by `executeSchemaMigration`. -/
inductive MigQuery where
  | create (q : CreateCollectionQuery)
  | alter (q : AlterCollectionQuery)
  deriving DecidableEq, Repr

/-- The final dispatch of `executeSchemaMigration`: all batched
`CreateCollection` queries followed by the values of the `AlterCollection`
map. -/
def dispatchQueries (st : MigState) : List MigQuery :=
  st.createCollections.map (fun q => .create q) ++
  st.alterCollections.map (fun p => .alter p.2)

/-- Translation of `executeSchemaMigration`: run the diff loop, then — and
only then — dispatch the batched queries.  The returned list is the batch
handed to `database.execute`; an error means the function threw before the
dispatch, executing nothing. -/
def executeSchemaMigration (interactive : Bool) (answers : List (Option String))
    (diffs : List SchemaDiff) : Except String (List MigQuery) :=
  match migLoop interactive (initState answers) diffs with
  | .error e => .error e
  | .ok st => .ok (dispatchQueries st)

/-- Specification-side column expansion of one declared field, following the
claim's words: a field of type relation produces no column, a localized field
produces exactly one column per configured locale with handle `h__c`, and any
other field is copied verbatim. -/
def fieldColumnsSpec (locales : List String) (field : Field) :
    List SchemaDescriptionColumn :=
  if field.type == "relation" then []
  else if field.localized then
    locales.map (fun code => ⟨field.handle ++ "__" ++ code, field.type⟩)
  else [⟨field.handle, field.type⟩]

/-- Specification-side test that an index references at least one localized
field (references are resolved against the declared field list by handle). -/
def referencesLocalized (fields : List Field) (index : SchemaIndexDecl) : Bool :=
  index.fields.any
    (fun p =>
      match fields.find? (fun f => f.handle == p.1) with
      | some f => f.localized
      | none => false)

/-- Specification-side locale qualification of one index field reference:
a reference to a localized field gains the `__code` suffix, any other
reference is kept. -/
def qualifyRef (fields : List Field) (code : String) (p : String × Direction) :
    String × Direction :=
  match fields.find? (fun f => f.handle == p.1) with
  | some f => if f.localized then (p.1 ++ "__" ++ code, p.2) else p
  | none => p

/-- Specification-side locale qualification of the field references of one
index copy: exactly the references to localized fields gain the `__code`
suffix. -/
def qualifyRefsSpec (fields : List Field) (code : String)
    (idxFields : List (String × Direction)) : List (String × Direction) :=
  idxFields.map (qualifyRef fields code)

/-- Specification-side index expansion of one declared index, following the
claim's words: an index referencing at least one localized field is expanded
once per locale, its handle gaining the `__c` suffix and its references
qualified with that same locale; a non-localized index is copied verbatim. -/
def indexDescsSpec (locales : List String) (fields : List Field)
    (index : SchemaIndexDecl) : List SchemaDescriptionIndex :=
  if referencesLocalized fields index then
    locales.map (fun code =>
      ⟨index.handle ++ "__" ++ code, index.type, qualifyRefsSpec fields code index.fields⟩)
  else [⟨index.handle, index.type, index.fields⟩]

/-- Specification-side expansion of a declared schema, following the claim's
words, to be compared with the source translation
`schemaToSchemaDescription`. -/
def schemaToSchemaDescriptionSpec (locales : List String) (schema : Schema) :
    SchemaDescription :=
  { handle := schema.handle
    columns := schema.fields.flatMap (fieldColumnsSpec locales)
    indexes := schema.indexes.flatMap (indexDescsSpec locales schema.fields) }

/-- Owning schema description of a diff operation. -/
def SchemaDiff.collection : SchemaDiff → SchemaDescription
  | .addCollection c => c
  | .addColumn c _ _ => c
  | .dropColumn c _ => c
  | .alterColumn c _ _ => c
  | .addIndex c _ => c
  | .dropIndex c _ => c

/-- Test for an `add_collection` diff owned by collection `ch`. -/
def isAddCollectionAt (ch : String) : SchemaDiff → Bool
  | .addCollection c => c.handle == ch
  | _ => false

/-- Test for an `add_column` diff for column `h` of collection `ch`. -/
def isAddColumnAt (ch h : String) : SchemaDiff → Bool
  | .addColumn c col _ => c.handle == ch && col.handle == h
  | _ => false

/-- Test for a `drop_column` diff for column `h` of collection `ch`. -/
def isDropColumnAt (ch h : String) : SchemaDiff → Bool
  | .dropColumn c col => c.handle == ch && col.handle == h
  | _ => false

/-- Test for an `alter_column` diff for column `h` of collection `ch`. -/
def isAlterColumnAt (ch h : String) : SchemaDiff → Bool
  | .alterColumn c col _ => c.handle == ch && col.handle == h
  | _ => false

/-- Test for any column-level diff (add, drop or alter) for column `h` of
collection `ch`. -/
def isColumnDiffAt (ch h : String) (d : SchemaDiff) : Bool :=
  isAddColumnAt ch h d || isDropColumnAt ch h d || isAlterColumnAt ch h d

/-- Test for an `add_collection` diff, regardless of the collection. -/
def isAddCollectionDiff : SchemaDiff → Bool
  | .addCollection _ => true
  | _ => false

/-- Number of `add_column` diffs targeting collection `h`. -/
def countAddColumnDiffs (diffs : List SchemaDiff) (h : String) : Nat :=
  diffs.countP (fun d => match d with
    | .addColumn c _ _ => c.handle == h
    | _ => false)

/-- Number of `alter_column` diffs targeting collection `h`. -/
def countAlterColumnDiffs (diffs : List SchemaDiff) (h : String) : Nat :=
  diffs.countP (fun d => match d with
    | .alterColumn c _ _ => c.handle == h
    | _ => false)

/-- Number of `drop_column` diffs targeting collection `h`. -/
def countDropColumnDiffs (diffs : List SchemaDiff) (h : String) : Nat :=
  diffs.countP (fun d => match d with
    | .dropColumn c _ => c.handle == h
    | _ => false)

/-- Number of `add_index` diffs targeting collection `h`. -/
def countAddIndexDiffs (diffs : List SchemaDiff) (h : String) : Nat :=
  diffs.countP (fun d => match d with
    | .addIndex c _ => c.handle == h
    | _ => false)

/-- Number of `drop_index` diffs targeting collection `h`. -/
def countDropIndexDiffs (diffs : List SchemaDiff) (h : String) : Nat :=
  diffs.countP (fun d => match d with
    | .dropIndex c _ => c.handle == h
    | _ => false)

/-- Test for a non-creation diff (one folded into an `AlterCollection`
query) targeting collection `h`. -/
def targetsAlterable (h : String) : SchemaDiff → Bool
  | .addCollection _ => false
  | d => d.collection.handle == h

/-- The `AlterCollection` query of a batched migration query, if any. -/
def MigQuery.alterQ : MigQuery → Option AlterCollectionQuery
  | .alter q => some q
  | .create _ => none

/-- Test for a batched `CreateCollection` query. -/
def MigQuery.isCreate : MigQuery → Bool
  | .create _ => true
  | .alter _ => false

/-- The unique `AlterCollection` query of the batch for collection `h`,
if any. -/
def alterQueryFor (qs : List MigQuery) (h : String) : Option AlterCollectionQuery :=
  (qs.filterMap MigQuery.alterQ).find? (fun a => a.handle == h)

/-- Sub-operation group sizes of an `AlterCollection` query, in enumeration
order. -/
def opCounts (q : AlterCollectionQuery) : Nat × Nat × Nat × Nat × Nat :=
  (q.addColumns.length, q.alterColumns.length, q.dropColumns.length,
    q.addIndexes.length, q.dropIndexes.length)

/-- The answer about to be consumed aborts the migration: the collaborator is
exhausted, the prompt throws, or the `'abort'` key is returned. -/
def abortAnswer : Option (Option String) → Bool
  | none => true
  | some none => true
  | some (some s) => s == "abort"

/-- Test that processing this diff in state `st` reaches an interactive
prompt: every `drop_column` diff prompts, and an `add_column` diff prompts
when its copy-candidate list is nonempty and its column name is not muted. -/
def promptsOn (st : MigState) : SchemaDiff → Bool
  | .dropColumn _ _ => true
  | .addColumn coll col copy =>
    !copy.isEmpty && !(st.muteNewColumn.contains (coll.handle ++ "." ++ col.handle))
  | _ => false

/-- The handle contributed to `mutedFields` by one live column: its own handle
when some declared column matches it. -/
def matchedHandle (sd : SchemaDescription) (c : SchemaDescriptionColumn) :
    Option String :=
  if (sd.columns.find? (fun x => x.handle == c.handle)).isSome then some c.handle
  else none

/-- The diff contributed by one live column in the first pass of
`getSchemaDiff`: `drop_column` when unmatched, `alter_column` when matched
with a type comparison lacking `Castable`, nothing otherwise. -/
def columnDiffFor (db : Database) (sd : SchemaDescription)
    (c : SchemaDescriptionColumn) : Option SchemaDiff :=
  match sd.columns.find? (fun x => x.handle == c.handle) with
  | none => some (.dropColumn sd c)
  | some column =>
    match mapStringToColumnType column.type, mapStringToColumnType c.type with
    | .ok a, .ok b =>
      if db.compareTypes a b &&& Compare.Castable == 0 then
        some (.alterColumn sd c column.type)
      else none
    | _, _ => none

/-- Per-collection tallies of the five foldable diff kinds, in the
sub-operation enumeration order. -/
def diffCountsAt (diffs : List SchemaDiff) (h : String) :
    Nat × Nat × Nat × Nat × Nat :=
  (countAddColumnDiffs diffs h, countAlterColumnDiffs diffs h,
    countDropColumnDiffs diffs h, countAddIndexDiffs diffs h,
    countDropIndexDiffs diffs h)

/-- Contribution of one diff to the tallies of its target collection. -/
def diffContribution : SchemaDiff → Nat × Nat × Nat × Nat × Nat
  | .addCollection _ => (0, 0, 0, 0, 0)
  | .addColumn _ _ _ => (1, 0, 0, 0, 0)
  | .alterColumn _ _ _ => (0, 1, 0, 0, 0)
  | .dropColumn _ _ => (0, 0, 1, 0, 0)
  | .addIndex _ _ => (0, 0, 0, 1, 0)
  | .dropIndex _ _ => (0, 0, 0, 0, 1)

/-- Componentwise sum of two tallies. -/
def addCounts (a b : Nat × Nat × Nat × Nat × Nat) : Nat × Nat × Nat × Nat × Nat :=
  (a.1 + b.1, a.2.1 + b.2.1, a.2.2.1 + b.2.2.1, a.2.2.2.1 + b.2.2.2.1,
    a.2.2.2.2 + b.2.2.2.2)

/-- Tallies stored in the migration state for collection `h`, when an
`AlterCollection` entry exists. -/
def stateAlterCounts (st : MigState) (h : String) :
    Option (Nat × Nat × Nat × Nat × Nat) :=
  (mapGet st.alterCollections h).map opCounts

theorem countP_filterMap {α β : Type} (f : α → Option β) (p : β → Bool) :
    ∀ l : List α,
      (l.filterMap f).countP p = l.countP (fun a => ((f a).map p).getD false) := by
  intro l
  induction l with
  | nil => rfl
  | cons a t ih =>
    rw [List.filterMap_cons, List.countP_cons]
    cases hfa : f a with
    | none => simpa [hfa] using ih
    | some b =>
      rw [List.countP_cons]
      simp only [hfa, Option.map_some', Option.getD_some]
      rw [ih]

theorem pairwise_of_total {α : Type} (R : α → α → Prop) (h : ∀ a b, R a b) :
    ∀ l : List α, l.Pairwise R := by
  intro l
  induction l with
  | nil => exact List.Pairwise.nil
  | cons a t ih => exact List.Pairwise.cons (fun b _ => h a b) ih

theorem countP_key_eq_one {α : Type} (f : α → String) :
    ∀ (l : List α) (a : α), (l.map f).Nodup → a ∈ l →
      l.countP (fun x => f x == f a) = 1 := by
  intro l
  induction l with
  | nil => intro a _ ha; cases ha
  | cons b t ih =>
    intro a hnd ha
    rw [List.map_cons, List.nodup_cons] at hnd
    rw [List.countP_cons]
    rcases List.mem_cons.mp ha with rfl | hat
    · have h0 : t.countP (fun x => f x == f a) = 0 := by
        rw [List.countP_eq_zero]
        intro x hx hfx
        exact hnd.1 (by
          rw [beq_iff_eq] at hfx
          exact hfx ▸ List.mem_map_of_mem f hx)
      simp [h0]
    · have hne : (f b == f a) = false := by
        rw [beq_eq_false_iff_ne]
        intro hEq
        exact hnd.1 (hEq ▸ List.mem_map_of_mem f hat)
      simp [hne, ih a hnd.2 hat]

theorem foldl_step_append {α β : Type} (step : List β → α → List β) (g : α → List β) :
    ∀ (l : List α), (∀ acc x, x ∈ l → step acc x = acc ++ g x) →
      ∀ init, l.foldl step init = init ++ l.flatMap g := by
  intro l
  induction l with
  | nil => intro _ init; simp
  | cons a t ih =>
    intro h init
    rw [List.foldl_cons, h init a (List.mem_cons_self a t),
      ih (fun acc x hx => h acc x (List.mem_cons_of_mem a hx)) (init ++ g a)]
    simp

theorem foldl_or_eq_any {α : Type} (p : α → Bool) :
    ∀ (l : List α) (b : Bool), l.foldl (fun acc x => acc || p x) b = (b || l.any p) := by
  intro l
  induction l with
  | nil => intro b; simp
  | cons a t ih => intro b; rw [List.foldl_cons, ih]; simp [Bool.or_assoc]

theorem objSet_of_not_mem (k : String) (v : Direction) :
    ∀ m : List (String × Direction), (∀ p ∈ m, p.1 ≠ k) →
      objSet m k v = m ++ [(k, v)] := by
  intro m
  induction m with
  | nil => intro _; rfl
  | cons q t ih =>
    intro h
    obtain ⟨k', v'⟩ := q
    have hne : (k' == k) = false := by
      rw [beq_eq_false_iff_ne]
      exact h (k', v') (List.mem_cons_self _ t)
    simp only [objSet, hne, if_neg (by simp at hne; exact hne)]
    rw [ih (fun p hp => h p (List.mem_cons_of_mem _ hp))]
    rfl

theorem foldl_objSet_eq_append :
    ∀ (ps init : List (String × Direction)),
      (init.map Prod.fst ++ ps.map Prod.fst).Nodup →
      ps.foldl (fun acc p => objSet acc p.1 p.2) init = init ++ ps := by
  intro ps
  induction ps with
  | nil => intro init _; simp
  | cons q t ih =>
    intro init hnd
    rw [List.foldl_cons]
    have hq : objSet init q.1 q.2 = init ++ [q] := by
      apply objSet_of_not_mem
      intro p hp hpk
      have h1 : q.1 ∈ init.map Prod.fst := hpk ▸ List.mem_map_of_mem Prod.fst hp
      have h2 : q.1 ∈ (q :: t).map Prod.fst := List.mem_map_of_mem Prod.fst (List.mem_cons_self q t)
      exact (List.disjoint_of_nodup_append hnd) h1 h2
    rw [hq, ih (init ++ [q])]
    · simp
    · have : (init.map Prod.fst ++ [q.1]) ++ t.map Prod.fst
          = init.map Prod.fst ++ (q.1 :: t.map Prod.fst) := by simp
      rw [List.map_append]
      simpa [this] using hnd

theorem mapGet_mapSet_self (k : String) (v : AlterCollectionQuery) :
    ∀ m, mapGet (mapSet m k v) k = some v := by
  intro m
  induction m with
  | nil => simp [mapSet, mapGet, List.find?]
  | cons q t ih =>
    obtain ⟨k', v'⟩ := q
    by_cases h : k' = k
    · simp [mapSet, h, mapGet, List.find?]
    · have hb : (k' == k) = false := by simpa using h
      simp only [mapSet, hb, if_neg h]
      simpa [mapGet, List.find?, hb] using ih

theorem mapGet_mapSet_ne (k k' : String) (v : AlterCollectionQuery) (hne : k' ≠ k) :
    ∀ m, mapGet (mapSet m k v) k' = mapGet m k' := by
  intro m
  induction m with
  | nil =>
    have : (k == k') = false := by simpa using fun h => hne h.symm
    simp [mapSet, mapGet, List.find?, this]
  | cons q t ih =>
    obtain ⟨k'', v''⟩ := q
    by_cases h : k'' = k
    · have h1 : (k == k') = false := by simpa using fun hx => hne hx.symm
      have h2 : (k'' == k') = false := by
        rw [beq_eq_false_iff_ne]; intro hx; exact hne (hx.symm.trans h)
      simp [mapSet, h, mapGet, List.find?, h1, h2]
    · have hb : (k'' == k) = false := by simpa using h
      simp only [mapSet, hb, if_neg h]
      by_cases h3 : k'' = k'
      · simp [mapGet, List.find?, h3]
      · have h3b : (k'' == k') = false := by simpa using h3
        simpa [mapGet, List.find?, h3b] using ih

theorem mapGet_ensureAlter_ne (m : List (String × AlterCollectionQuery))
    (h h' : String) (hne : h' ≠ h) :
    mapGet (ensureAlter m h) h' = mapGet m h' := by
  unfold ensureAlter
  by_cases hs : (mapGet m h).isSome
  · rw [if_pos hs]
  · rw [if_neg hs]
    exact mapGet_mapSet_ne h h' (alterCollection h) hne m

theorem getAlter_ensureAlter (m : List (String × AlterCollectionQuery)) (h : String) :
    getAlter (ensureAlter m h) h = getAlter m h := by
  unfold ensureAlter getAlter
  cases hm : mapGet m h with
  | some q => simp [hm]
  | none => simp [hm, mapGet_mapSet_self]

theorem mapGet_ensureAlter_self (m : List (String × AlterCollectionQuery)) (h : String) :
    mapGet (ensureAlter m h) h = some (getAlter m h) := by
  unfold ensureAlter getAlter
  cases hm : mapGet m h with
  | some q => simp [hm]
  | none => simp [hm, mapGet_mapSet_self]

theorem mapSet_keys (k : String) (v : AlterCollectionQuery) :
    ∀ m, ((mapSet m k v).map Prod.fst = m.map Prod.fst ∧ k ∈ m.map Prod.fst) ∨
      ((mapSet m k v).map Prod.fst = m.map Prod.fst ++ [k] ∧ k ∉ m.map Prod.fst) := by
  intro m
  induction m with
  | nil => right; simp [mapSet]
  | cons q t ih =>
    obtain ⟨k', v'⟩ := q
    by_cases h : k' = k
    · left; simp [mapSet, h]
    · have hb : (k' == k) = false := by simpa using h
      simp only [mapSet, hb, if_neg h]
      rcases ih with ⟨h1, h2⟩ | ⟨h1, h2⟩
      · left
        constructor
        · simp [h1]
        · exact List.mem_cons_of_mem _ h2
      · right
        constructor
        · simp [h1]
        · simp only [List.map_cons, List.mem_cons]
          rintro (hx | hx)
          · exact h hx.symm
          · exact h2 hx

theorem mapSet_keys_nodup (k : String) (v : AlterCollectionQuery)
    (m : List (String × AlterCollectionQuery)) (hnd : (m.map Prod.fst).Nodup) :
    ((mapSet m k v).map Prod.fst).Nodup := by
  rcases mapSet_keys k v m with ⟨h1, _⟩ | ⟨h1, h2⟩
  · rw [h1]; exact hnd
  · rw [h1]
    refine List.Nodup.append hnd (List.nodup_singleton k) ?_
    intro x hx hy
    simp only [List.mem_singleton] at hy
    exact h2 (hy ▸ hx)

theorem mapSet_handle_inv (k : String) (v : AlterCollectionQuery)
    (hv : v.handle = k) :
    ∀ m, (∀ p ∈ m, (p.2 : AlterCollectionQuery).handle = p.1) →
      ∀ p ∈ mapSet m k v, (p.2 : AlterCollectionQuery).handle = p.1 := by
  intro m
  induction m with
  | nil =>
    intro _ p hp
    simp only [mapSet, List.mem_singleton] at hp
    subst hp; exact hv
  | cons q t ih =>
    intro hall p hp
    obtain ⟨k', v'⟩ := q
    by_cases h : k' = k
    · simp only [mapSet, h, beq_self_eq_true, if_pos rfl] at hp
      rcases List.mem_cons.mp hp with rfl | hpt
      · exact hv
      · exact hall p (List.mem_cons_of_mem _ hpt)
    · have hb : (k' == k) = false := by simpa using h
      simp only [mapSet, hb, if_neg h] at hp
      rcases List.mem_cons.mp hp with rfl | hpt
      · exact hall _ (List.mem_cons_self _ _)
      · exact ih (fun r hr => hall r (List.mem_cons_of_mem _ hr)) p hpt

theorem ensureAlter_keys_nodup (h : String)
    (m : List (String × AlterCollectionQuery)) (hnd : (m.map Prod.fst).Nodup) :
    ((ensureAlter m h).map Prod.fst).Nodup := by
  unfold ensureAlter
  by_cases hs : (mapGet m h).isSome
  · rw [if_pos hs]; exact hnd
  · rw [if_neg hs]
    exact mapSet_keys_nodup h (alterCollection h) m hnd

theorem ensureAlter_handle_inv (h : String)
    (m : List (String × AlterCollectionQuery))
    (hall : ∀ p ∈ m, (p.2 : AlterCollectionQuery).handle = p.1) :
    ∀ p ∈ ensureAlter m h, (p.2 : AlterCollectionQuery).handle = p.1 := by
  unfold ensureAlter
  by_cases hs : (mapGet m h).isSome
  · rw [if_pos hs]; exact hall
  · rw [if_neg hs]
    exact mapSet_handle_inv h (alterCollection h) rfl m hall

theorem values_find_eq_mapGet (h : String) :
    ∀ m : List (String × AlterCollectionQuery),
      (∀ p ∈ m, (p.2 : AlterCollectionQuery).handle = p.1) →
      (m.map Prod.snd).find? (fun a => a.handle == h) = mapGet m h := by
  intro m
  induction m with
  | nil => intro _; rfl
  | cons q t ih =>
    intro hall
    obtain ⟨k, v⟩ := q
    have hv : v.handle = k := hall (k, v) (List.mem_cons_self _ _)
    by_cases hk : k = h
    · simp [mapGet, List.find?, hv, hk]
    · have h1 : (v.handle == h) = false := by simp [hv, hk]
      have h2 : (k == h) = false := by simpa using hk
      simp only [List.map_cons, List.find?, h1, mapGet, h2]
      exact ih (fun r hr => hall r (List.mem_cons_of_mem _ hr))

theorem migLoop_append (i : Bool) (l₁ l₂ : List SchemaDiff) :
    ∀ st, migLoop i st (l₁ ++ l₂) =
      match migLoop i st l₁ with
      | .ok st' => migLoop i st' l₂
      | .error e => .error e := by
  induction l₁ with
  | nil => intro st; rfl
  | cons d t ih =>
    intro st
    have hL : migLoop i st (d :: (t ++ l₂)) =
        match migStep i st d with
        | .error e => .error e
        | .ok st' => migLoop i st' (t ++ l₂) := rfl
    have hR : migLoop i st (d :: t) =
        match migStep i st d with
        | .error e => .error e
        | .ok st' => migLoop i st' t := rfl
    rw [List.cons_append, hL, hR]
    cases migStep i st d with
    | error e => rfl
    | ok st' => exact ih st'

theorem columnPass_ok (db : Database) (sd : SchemaDescription) :
    ∀ (cols : List SchemaDescriptionColumn) (muted m' : List String)
      (ds : List SchemaDiff),
      columnPass db sd cols muted = .ok (m', ds) →
      m' = muted ++ cols.filterMap (matchedHandle sd) ∧
        ds = cols.filterMap (columnDiffFor db sd) := by
  intro cols
  induction cols with
  | nil =>
    intro muted m' ds h
    simp only [columnPass, Except.ok.injEq, Prod.mk.injEq] at h
    obtain ⟨rfl, rfl⟩ := h
    simp
  | cons c rest ih =>
    intro muted m' ds h
    unfold columnPass at h
    cases hfind : sd.columns.find? (fun x => x.handle == c.handle) with
    | some column =>
      simp only [hfind] at h
      have hch : column.handle = c.handle := by
        have := List.find?_some hfind
        simpa [beq_iff_eq] using this
      cases ha : mapStringToColumnType column.type with
      | error e => simp only [ha] at h; exact Except.noConfusion h
      | ok a =>
        cases hb : mapStringToColumnType c.type with
        | error e => simp only [ha, hb] at h; exact Except.noConfusion h
        | ok b =>
          simp only [ha, hb] at h
          by_cases hcast : db.compareTypes a b &&& Compare.Castable == 0
          · rw [if_pos hcast] at h
            cases hrec : columnPass db sd rest (muted ++ [column.handle]) with
            | error e => simp only [hrec] at h; exact Except.noConfusion h
            | ok r =>
              simp only [hrec, Except.ok.injEq, Prod.mk.injEq] at h
              obtain ⟨rfl, rfl⟩ := h
              obtain ⟨hm, hd⟩ := ih (muted ++ [column.handle]) r.1 r.2 hrec
              constructor
              · rw [hm, hch, List.filterMap_cons]
                simp [matchedHandle, hfind]
              · rw [hd, List.filterMap_cons]
                simp [columnDiffFor, hfind, ha, hb, hcast]
          · rw [if_neg hcast] at h
            obtain ⟨hm, hd⟩ := ih (muted ++ [column.handle]) m' ds h
            constructor
            · rw [hm, hch, List.filterMap_cons]
              simp [matchedHandle, hfind]
            · rw [hd, List.filterMap_cons]
              simp [columnDiffFor, hfind, ha, hb, hcast]
    | none =>
      simp only [hfind] at h
      cases hrec : columnPass db sd rest muted with
      | error e => simp only [hrec] at h; exact Except.noConfusion h
      | ok r =>
        simp only [hrec, Except.ok.injEq, Prod.mk.injEq] at h
        obtain ⟨rfl, rfl⟩ := h
        obtain ⟨hm, hd⟩ := ih muted r.1 r.2 hrec
        constructor
        · rw [hm, List.filterMap_cons]
          simp [matchedHandle, hfind]
        · rw [hd, List.filterMap_cons]
          simp [columnDiffFor, hfind]

theorem diffOne_exists_false (db : Database) (locales : List String) (schema : Schema)
    (h : db.collectionExists schema.handle = false) :
    diffOne db locales schema =
      .ok [.addCollection (schemaToSchemaDescription locales schema)] := by
  simp [diffOne, h]

theorem diffOne_ok_decomp (db : Database) (locales : List String) (schema : Schema)
    (ds : List SchemaDiff) (hex : db.collectionExists schema.handle = true)
    (h : diffOne db locales schema = .ok ds) :
    ∃ dbsd,
      databaseDescriptionToSchemaDescription locales
          (db.describeCollection schema.handle) = .ok dbsd ∧
      ds =
        dbsd.columns.filterMap
            (columnDiffFor db (schemaToSchemaDescription locales schema)) ++
          addColumnDiffs (schemaToSchemaDescription locales schema) dbsd.columns
            (dbsd.columns.filterMap
              (matchedHandle (schemaToSchemaDescription locales schema))) ++
          indexDropDiffs (schemaToSchemaDescription locales schema) dbsd.indexes ++
          indexAddDiffs (schemaToSchemaDescription locales schema)
            (mutedIndexesOf dbsd.indexes) := by
  unfold diffOne at h
  simp only [hex, if_true] at h
  cases hdb : databaseDescriptionToSchemaDescription locales
      (db.describeCollection schema.handle) with
  | error e => simp only [hdb] at h; exact Except.noConfusion h
  | ok dbsd =>
    simp only [hdb] at h
    cases hcp : columnPass db (schemaToSchemaDescription locales schema) dbsd.columns [] with
    | error e => simp only [hcp] at h; exact Except.noConfusion h
    | ok r =>
      simp only [hcp, Except.ok.injEq] at h
      obtain ⟨hm, hd⟩ :=
        columnPass_ok db (schemaToSchemaDescription locales schema) dbsd.columns [] r.1 r.2
          (by rw [hcp])
      refine ⟨dbsd, rfl, ?_⟩
      rw [← h, hd, hm]
      simp

theorem columnDiffFor_eq_some (db : Database) (sd : SchemaDescription)
    (c : SchemaDescriptionColumn) (d : SchemaDiff)
    (h : columnDiffFor db sd c = some d) :
    (sd.columns.find? (fun x => x.handle == c.handle) = none ∧
      d = .dropColumn sd c) ∨
    (∃ column a b,
      sd.columns.find? (fun x => x.handle == c.handle) = some column ∧
      mapStringToColumnType column.type = .ok a ∧
      mapStringToColumnType c.type = .ok b ∧
      (db.compareTypes a b &&& Compare.Castable == 0) = true ∧
      d = .alterColumn sd c column.type) := by
  unfold columnDiffFor at h
  cases hfind : sd.columns.find? (fun x => x.handle == c.handle) with
  | none =>
    simp only [hfind, Option.some.injEq] at h
    exact Or.inl ⟨rfl, h.symm⟩
  | some column =>
    simp only [hfind] at h
    cases ha : mapStringToColumnType column.type with
    | error e => simp only [ha] at h; exact Option.noConfusion h
    | ok a =>
      cases hb : mapStringToColumnType c.type with
      | error e => simp only [ha, hb] at h; exact Option.noConfusion h
      | ok b =>
        simp only [ha, hb] at h
        by_cases hcast : db.compareTypes a b &&& Compare.Castable == 0
        · rw [if_pos hcast] at h
          simp only [Option.some.injEq] at h
          exact Or.inr ⟨column, a, b, rfl, ha, rfl, hcast, h.symm⟩
        · rw [if_neg hcast] at h
          exact Option.noConfusion h

theorem mem_addColumnDiffs (sd : SchemaDescription)
    (dbCols : List SchemaDescriptionColumn) (muted : List String) (d : SchemaDiff)
    (h : d ∈ addColumnDiffs sd dbCols muted) :
    ∃ column, column ∈ sd.columns ∧ muted.contains column.handle = false ∧
      d = .addColumn sd column (copyCandidates dbCols column.handle) := by
  unfold addColumnDiffs at h
  obtain ⟨column, hc, hsome⟩ := List.mem_filterMap.mp h
  by_cases hm : muted.contains column.handle
  · rw [if_pos hm] at hsome; exact Option.noConfusion hsome
  · rw [if_neg hm] at hsome
    simp only [Option.some.injEq] at hsome
    exact ⟨column, hc, by simpa using hm, hsome.symm⟩

theorem mem_indexDropDiffs (sd : SchemaDescription)
    (idxs : List SchemaDescriptionIndex) (d : SchemaDiff)
    (h : d ∈ indexDropDiffs sd idxs) :
    ∃ i, i ∈ idxs ∧ d = .dropIndex sd i := by
  unfold indexDropDiffs at h
  obtain ⟨i, hi, hsome⟩ := List.mem_filterMap.mp h
  by_cases hf : ((sd.indexes.find? (fun index => index.handle == i.handle)).isSome : Prop)
  · rw [if_pos hf] at hsome; exact Option.noConfusion hsome
  · rw [if_neg hf] at hsome
    simp only [Option.some.injEq] at hsome
    exact ⟨i, hi, hsome.symm⟩

theorem mem_indexAddDiffs (sd : SchemaDescription) (muted : List String)
    (d : SchemaDiff) (h : d ∈ indexAddDiffs sd muted) :
    ∃ i, i ∈ sd.indexes ∧ d = .addIndex sd i := by
  unfold indexAddDiffs at h
  obtain ⟨i, hi, hsome⟩ := List.mem_filterMap.mp h
  by_cases hm : muted.contains i.handle
  · rw [if_pos hm] at hsome; exact Option.noConfusion hsome
  · rw [if_neg hm] at hsome
    simp only [Option.some.injEq] at hsome
    exact ⟨i, hi, hsome.symm⟩

theorem diffOne_collection_handle (db : Database) (locales : List String)
    (schema : Schema) (ds : List SchemaDiff) (d : SchemaDiff)
    (h : diffOne db locales schema = .ok ds) (hd : d ∈ ds) :
    d.collection.handle = schema.handle := by
  cases hex : db.collectionExists schema.handle with
  | false =>
    rw [diffOne_exists_false db locales schema hex] at h
    simp only [Except.ok.injEq] at h
    rw [← h] at hd
    simp only [List.mem_singleton] at hd
    subst hd
    rfl
  | true =>
    obtain ⟨dbsd, _, hds⟩ := diffOne_ok_decomp db locales schema ds hex h
    subst hds
    rcases List.mem_append.mp hd with hd' | hIdxAdd
    · rcases List.mem_append.mp hd' with hd'' | hIdxDrop
      · rcases List.mem_append.mp hd'' with hCol | hAdd
        · obtain ⟨c, _, hsome⟩ := List.mem_filterMap.mp hCol
          rcases columnDiffFor_eq_some db _ c d hsome with ⟨_, rfl⟩ | ⟨_, _, _, _, _, _, _, rfl⟩ <;> rfl
        · obtain ⟨column, _, _, rfl⟩ := mem_addColumnDiffs _ _ _ d hAdd
          rfl
      · obtain ⟨i, _, rfl⟩ := mem_indexDropDiffs _ _ d hIdxDrop
        rfl
    · obtain ⟨i, _, rfl⟩ := mem_indexAddDiffs _ _ d hIdxAdd
      rfl

theorem getSchemaDiff_cons_ok (db : Database) (locales : List String) (s : Schema)
    (rest : List Schema) (diffs : List SchemaDiff)
    (h : getSchemaDiff db locales (s :: rest) = .ok diffs) :
    ∃ ds more, diffOne db locales s = .ok ds ∧
      getSchemaDiff db locales rest = .ok more ∧ diffs = ds ++ more := by
  unfold getSchemaDiff at h
  cases h1 : diffOne db locales s with
  | error e => simp only [h1] at h; exact Except.noConfusion h
  | ok ds =>
    simp only [h1] at h
    cases h2 : getSchemaDiff db locales rest with
    | error e => simp only [h2] at h; exact Except.noConfusion h
    | ok more =>
      simp only [h2, Except.ok.injEq] at h
      exact ⟨ds, more, rfl, rfl, h.symm⟩

theorem getSchemaDiff_mem (db : Database) (locales : List String) :
    ∀ (schemas : List Schema) (diffs : List SchemaDiff),
      getSchemaDiff db locales schemas = .ok diffs →
      ∀ d ∈ diffs, ∃ s, s ∈ schemas ∧
        ∃ ds, diffOne db locales s = .ok ds ∧ d ∈ ds := by
  intro schemas
  induction schemas with
  | nil =>
    intro diffs h d hd
    simp only [getSchemaDiff, Except.ok.injEq] at h
    rw [← h] at hd
    cases hd
  | cons s' rest ih =>
    intro diffs h d hd
    obtain ⟨ds', more, h1, h2, rfl⟩ := getSchemaDiff_cons_ok db locales s' rest diffs h
    rcases List.mem_append.mp hd with hd' | hd'
    · exact ⟨s', List.mem_cons_self _ _, ds', h1, hd'⟩
    · obtain ⟨s'', hs'', ds'', h3, h4⟩ := ih more h2 d hd'
      exact ⟨s'', List.mem_cons_of_mem _ hs'', ds'', h3, h4⟩

theorem getSchemaDiff_ok_of_mem (db : Database) (locales : List String) :
    ∀ (schemas : List Schema) (diffs : List SchemaDiff),
      getSchemaDiff db locales schemas = .ok diffs →
      ∀ s ∈ schemas, ∃ ds, diffOne db locales s = .ok ds := by
  intro schemas
  induction schemas with
  | nil => intro diffs _ s hs; cases hs
  | cons s' rest ih =>
    intro diffs h s hs
    obtain ⟨ds', more, h1, h2, rfl⟩ := getSchemaDiff_cons_ok db locales s' rest diffs h
    rcases List.mem_cons.mp hs with rfl | hs'
    · exact ⟨ds', h1⟩
    · exact ih more h2 s hs'

theorem getSchemaDiff_countP (db : Database) (locales : List String) (s : Schema)
    (ds : List SchemaDiff) (p : SchemaDiff → Bool)
    (hp : ∀ d, p d = true → d.collection.handle = s.handle)
    (hds : diffOne db locales s = .ok ds) :
    ∀ (schemas : List Schema) (diffs : List SchemaDiff),
      getSchemaDiff db locales schemas = .ok diffs →
      (schemas.map Schema.handle).Nodup → s ∈ schemas →
      diffs.countP p = ds.countP p := by
  intro schemas
  induction schemas with
  | nil => intro diffs _ _ hs; cases hs
  | cons s' rest ih =>
    intro diffs h hnd hs
    obtain ⟨ds', more, h1, h2, rfl⟩ := getSchemaDiff_cons_ok db locales s' rest diffs h
    rw [List.countP_append]
    rw [List.map_cons, List.nodup_cons] at hnd
    rcases List.mem_cons.mp hs with rfl | hs'
    · have hds' : ds' = ds := by
        rw [h1] at hds
        exact Except.ok.inj hds
      have hmore : more.countP p = 0 := by
        rw [List.countP_eq_zero]
        intro d hd hpd
        obtain ⟨s'', hs'', ds'', hds'', hd''⟩ := getSchemaDiff_mem db locales rest more h2 d hd
        have hcol : d.collection.handle = s''.handle :=
          diffOne_collection_handle db locales s'' ds'' d hds'' hd''
        have h3 : s''.handle = s.handle := by rw [← hcol, hp d hpd]
        exact hnd.1 (h3 ▸ List.mem_map_of_mem Schema.handle hs'')
      rw [hds', hmore]
      simp
    · have hds0 : ds'.countP p = 0 := by
        rw [List.countP_eq_zero]
        intro d hd hpd
        have hcol : d.collection.handle = s'.handle :=
          diffOne_collection_handle db locales s' ds' d h1 hd
        have h4 : s'.handle = s.handle := by rw [← hcol, hp d hpd]
        exact hnd.1 (h4 ▸ List.mem_map_of_mem Schema.handle hs')
      rw [hds0, ih more h2 hnd.2 hs']
      simp

theorem getSchemaDiff_mem_sat (db : Database) (locales : List String)
    (schemas : List Schema) (diffs : List SchemaDiff) (s : Schema)
    (ds : List SchemaDiff) (p : SchemaDiff → Bool)
    (hrun : getSchemaDiff db locales schemas = .ok diffs)
    (hnd : (schemas.map Schema.handle).Nodup) (hs : s ∈ schemas)
    (hds : diffOne db locales s = .ok ds)
    (hp : ∀ d, p d = true → d.collection.handle = s.handle) :
    ∀ d ∈ diffs, p d = true → d ∈ ds := by
  intro d hd hpd
  obtain ⟨s'', hs'', ds'', hds'', hd''⟩ := getSchemaDiff_mem db locales schemas diffs hrun d hd
  have hcol : d.collection.handle = s''.handle :=
    diffOne_collection_handle db locales s'' ds'' d hds'' hd''
  have hEq : s''.handle = s.handle := by rw [← hcol, hp d hpd]
  have hss : s'' = s := List.inj_on_of_nodup_map hnd hs'' hs hEq
  subst hss
  rw [hds''] at hds
  have : ds'' = ds := Except.ok.inj hds
  exact this ▸ hd''

/-- C5: for every declared collection that the backend's `collectionExists`
reports as nonexistent, `getSchemaDiff` emits exactly one `add_collection`
diff carrying that collection's expanded schema description, and emits no
column-level or index-level diff for that collection; moreover the diffs for
that collection are computed without consulting `describeCollection` (the
result is the same for every `describeCollection` function). -/
theorem C5_add_collection_only (db : Database) (locales : List String)
    (schemas : List Schema) (diffs : List SchemaDiff) (s : Schema)
    (hnd : (schemas.map Schema.handle).Nodup) (hs : s ∈ schemas)
    (hex : db.collectionExists s.handle = false)
    (hrun : getSchemaDiff db locales schemas = .ok diffs) :
    diffs.countP (fun d => d.collection.handle == s.handle) = 1 ∧
    (∀ d ∈ diffs, d.collection.handle = s.handle →
      d = .addCollection (schemaToSchemaDescription locales s)) ∧
    (∀ dc, diffOne ⟨db.collectionExists, dc, db.compareTypes⟩ locales s =
      .ok [.addCollection (schemaToSchemaDescription locales s)]) := by
  have hds : diffOne db locales s =
      .ok [.addCollection (schemaToSchemaDescription locales s)] :=
    diffOne_exists_false db locales s hex
  have hp : ∀ d : SchemaDiff,
      (fun d => d.collection.handle == s.handle) d = true →
      d.collection.handle = s.handle := by
    intro d hd
    simpa [beq_iff_eq] using hd
  refine ⟨?_, ?_, ?_⟩
  · rw [getSchemaDiff_countP db locales s _ _ hp hds schemas diffs hrun hnd hs]
    simp [List.countP_cons, schemaToSchemaDescription, SchemaDiff.collection]
  · intro d hd hcoll
    have := getSchemaDiff_mem_sat db locales schemas diffs s _ _ hrun hnd hs hds hp d hd
      (by simpa [beq_iff_eq] using hcoll)
    simpa using this
  · intro dc
    exact diffOne_exists_false ⟨db.collectionExists, dc, db.compareTypes⟩ locales s hex

/-- Witness for C5 at a concrete input: one declared collection `Post` that
does not exist in the backend. -/
theorem C5_add_collection_only_witness :
    (([⟨"Post", [⟨"title", "text", false⟩], []⟩] : List Schema).map Schema.handle).Nodup ∧
    (getSchemaDiff
        ⟨fun _ => false, fun h => ⟨h, [], []⟩, fun _ _ => 0⟩ ["en"]
        [⟨"Post", [⟨"title", "text", false⟩], []⟩]).toOption.isSome ∧
    ((getSchemaDiff
        ⟨fun _ => false, fun h => ⟨h, [], []⟩, fun _ _ => 0⟩ ["en"]
        [⟨"Post", [⟨"title", "text", false⟩], []⟩]).toOption.getD []).countP
      (fun d => d.collection.handle == "Post") = 1 := by
  refine ⟨by decide, by decide, ?_⟩
  have h := C5_add_collection_only
    ⟨fun _ => false, fun h => ⟨h, [], []⟩, fun _ _ => 0⟩ ["en"]
    [⟨"Post", [⟨"title", "text", false⟩], []⟩]
    [.addCollection ⟨"Post", [(⟨"title", "text"⟩ : SchemaDescriptionColumn)], []⟩]
    ⟨"Post", [⟨"title", "text", false⟩], []⟩
    (by decide) (by decide) (by decide) rfl
  exact h.1

theorem isAlterColumnAt_handle (ch h : String) (d : SchemaDiff)
    (hd : isAlterColumnAt ch h d = true) : d.collection.handle = ch := by
  cases d <;> simp [isAlterColumnAt] at hd <;>
    simp [SchemaDiff.collection, hd.1]

theorem isColumnDiffAt_handle (ch h : String) (d : SchemaDiff)
    (hd : isColumnDiffAt ch h d = true) : d.collection.handle = ch := by
  cases d <;>
    simp [isColumnDiffAt, isAddColumnAt, isDropColumnAt, isAlterColumnAt] at hd <;>
    simp [SchemaDiff.collection, hd.1]

theorem matchedHandle_isSome_of_find (sd : SchemaDescription)
    (c : SchemaDescriptionColumn) (col : SchemaDescriptionColumn)
    (hfind : sd.columns.find? (fun x => x.handle == c.handle) = some col) :
    matchedHandle sd c = some c.handle := by
  unfold matchedHandle
  rw [hfind]
  rfl

/-- C1: for every declared collection that exists in the backend and every
live column whose handle also names a declared column, `getSchemaDiff` emits
exactly one `alter_column` diff for that handle when the backend's
`compareTypes` on the mapped declared and live types lacks the `Castable`
flag, and emits no column-level diff at all for that handle when the
comparison includes `Castable`. -/
theorem C1_alter_column_on_castability (db : Database) (locales : List String)
    (schemas : List Schema) (diffs : List SchemaDiff) (s : Schema)
    (dbsd : SchemaDescription) (dbCol col : SchemaDescriptionColumn)
    (a b : ColumnType)
    (hnd : (schemas.map Schema.handle).Nodup) (hs : s ∈ schemas)
    (hex : db.collectionExists s.handle = true)
    (hrun : getSchemaDiff db locales schemas = .ok diffs)
    (hdb : databaseDescriptionToSchemaDescription locales
      (db.describeCollection s.handle) = .ok dbsd)
    (hDnd : (dbsd.columns.map SchemaDescriptionColumn.handle).Nodup)
    (hdc : dbCol ∈ dbsd.columns)
    (hfind : (schemaToSchemaDescription locales s).columns.find?
      (fun x => x.handle == dbCol.handle) = some col)
    (ha : mapStringToColumnType col.type = .ok a)
    (hb : mapStringToColumnType dbCol.type = .ok b) :
    ((db.compareTypes a b &&& Compare.Castable == 0) = true →
      diffs.countP (isAlterColumnAt s.handle dbCol.handle) = 1) ∧
    ((db.compareTypes a b &&& Compare.Castable == 0) = false →
      diffs.countP (isColumnDiffAt s.handle dbCol.handle) = 0) := by
  obtain ⟨ds, hds⟩ := getSchemaDiff_ok_of_mem db locales schemas diffs hrun s hs
  obtain ⟨dbsd', hdb', hdecomp⟩ := diffOne_ok_decomp db locales s ds hex hds
  rw [hdb] at hdb'
  rw [← Except.ok.inj hdb'] at hdecomp
  constructor
  · intro hcast
    rw [getSchemaDiff_countP db locales s ds _
      (isAlterColumnAt_handle s.handle dbCol.handle) hds schemas diffs hrun hnd hs]
    rw [hdecomp, List.countP_append, List.countP_append, List.countP_append]
    have h1 : (dbsd.columns.filterMap
        (columnDiffFor db (schemaToSchemaDescription locales s))).countP
          (isAlterColumnAt s.handle dbCol.handle) = 1 := by
      rw [countP_filterMap]
      rw [List.countP_congr (q := fun c => c.handle == dbCol.handle) ?_]
      · exact countP_key_eq_one SchemaDescriptionColumn.handle dbsd.columns dbCol hDnd hdc
      · intro c hc
        by_cases hch : c.handle = dbCol.handle
        · obtain rfl := List.inj_on_of_nodup_map hDnd hc hdc hch
          have hval : columnDiffFor db (schemaToSchemaDescription locales s) c =
              some (.alterColumn (schemaToSchemaDescription locales s) c col.type) := by
            unfold columnDiffFor
            simp only [hfind, ha, hb]
            rw [if_pos hcast]
          rw [hval]
          simp [isAlterColumnAt, schemaToSchemaDescription]
        · cases hcd : columnDiffFor db (schemaToSchemaDescription locales s) c with
          | none => simp [hch]
          | some d =>
            rcases columnDiffFor_eq_some db _ c d hcd with ⟨_, rfl⟩ |
              ⟨column, a', b', _, _, _, _, rfl⟩ <;>
              simp [isAlterColumnAt, hch]
    have h2 : (addColumnDiffs (schemaToSchemaDescription locales s) dbsd.columns
        (dbsd.columns.filterMap
          (matchedHandle (schemaToSchemaDescription locales s)))).countP
          (isAlterColumnAt s.handle dbCol.handle) = 0 := by
      rw [List.countP_eq_zero]
      intro d hd hpd
      obtain ⟨column, _, _, rfl⟩ := mem_addColumnDiffs _ _ _ d hd
      simp [isAlterColumnAt] at hpd
    have h3 : (indexDropDiffs (schemaToSchemaDescription locales s)
        dbsd.indexes).countP (isAlterColumnAt s.handle dbCol.handle) = 0 := by
      rw [List.countP_eq_zero]
      intro d hd hpd
      obtain ⟨i, _, rfl⟩ := mem_indexDropDiffs _ _ d hd
      simp [isAlterColumnAt] at hpd
    have h4 : (indexAddDiffs (schemaToSchemaDescription locales s)
        (mutedIndexesOf dbsd.indexes)).countP
          (isAlterColumnAt s.handle dbCol.handle) = 0 := by
      rw [List.countP_eq_zero]
      intro d hd hpd
      obtain ⟨i, _, rfl⟩ := mem_indexAddDiffs _ _ d hd
      simp [isAlterColumnAt] at hpd
    rw [h1, h2, h3, h4]
  · intro hcastf
    rw [getSchemaDiff_countP db locales s ds _
      (isColumnDiffAt_handle s.handle dbCol.handle) hds schemas diffs hrun hnd hs]
    rw [List.countP_eq_zero]
    intro d hd hpd
    rw [hdecomp] at hd
    rcases List.mem_append.mp hd with hd' | hIdxAdd
    · rcases List.mem_append.mp hd' with hd'' | hIdxDrop
      · rcases List.mem_append.mp hd'' with hCol | hAdd
        · obtain ⟨c, hc, hsome⟩ := List.mem_filterMap.mp hCol
          rcases columnDiffFor_eq_some db _ c d hsome with
            ⟨hnone, rfl⟩ | ⟨column, a', b', hfind', ha', hb', hcast', rfl⟩
          · have hch : c.handle = dbCol.handle := by
              simpa [isColumnDiffAt, isAddColumnAt, isDropColumnAt,
                isAlterColumnAt, schemaToSchemaDescription] using hpd
            rw [hch, hfind] at hnone
            exact Option.noConfusion hnone
          · have hch : c.handle = dbCol.handle := by
              simpa [isColumnDiffAt, isAddColumnAt, isDropColumnAt,
                isAlterColumnAt, schemaToSchemaDescription] using hpd
            obtain rfl := List.inj_on_of_nodup_map hDnd hc hdc hch
            rw [hfind] at hfind'
            have hcoleq : col = column := Option.some.inj hfind'
            subst hcoleq
            have haa : a' = a := by
              rw [ha] at ha'
              exact (Except.ok.inj ha').symm
            have hbb : b' = b := by
              rw [hb] at hb'
              exact (Except.ok.inj hb').symm
            rw [haa, hbb, hcastf] at hcast'
            exact Bool.noConfusion hcast'
        · obtain ⟨column, hcol, hmut, rfl⟩ := mem_addColumnDiffs _ _ _ d hAdd
          have hch : column.handle = dbCol.handle := by
            simpa [isColumnDiffAt, isAddColumnAt, isDropColumnAt,
              isAlterColumnAt, schemaToSchemaDescription] using hpd
          have hmem : dbCol.handle ∈ dbsd.columns.filterMap
              (matchedHandle (schemaToSchemaDescription locales s)) :=
            List.mem_filterMap.mpr
              ⟨dbCol, hdc, matchedHandle_isSome_of_find _ dbCol col hfind⟩
          rw [hch] at hmut
          have hnotmem : dbCol.handle ∉ dbsd.columns.filterMap
              (matchedHandle (schemaToSchemaDescription locales s)) := by
            simpa using hmut
          exact hnotmem hmem
      · obtain ⟨i, _, rfl⟩ := mem_indexDropDiffs _ _ d hIdxDrop
        simp [isColumnDiffAt, isAddColumnAt, isDropColumnAt, isAlterColumnAt] at hpd
    · obtain ⟨i, _, rfl⟩ := mem_indexAddDiffs _ _ d hIdxAdd
      simp [isColumnDiffAt, isAddColumnAt, isDropColumnAt, isAlterColumnAt] at hpd

/-- Witness for C1 at a concrete input: live `Post.title` is `Text`, declared
`Post.title` is `int`, the backend's comparison returns no flags, so exactly
one `alter_column` diff is emitted for `title`. -/
theorem C1_alter_column_on_castability_witness :
    getSchemaDiff
        ⟨fun _ => true, fun _ => ⟨"Post", [⟨"title", ColumnType.Text⟩], []⟩,
          fun _ _ => 0⟩ ["en"]
        [⟨"Post", [⟨"title", "int", false⟩], []⟩] =
      .ok [.alterColumn ⟨"Post", [⟨"title", "int"⟩], []⟩ ⟨"title", "text"⟩ "int"] ∧
    ([(.alterColumn ⟨"Post", [⟨"title", "int"⟩], []⟩ ⟨"title", "text"⟩ "int" :
        SchemaDiff)]).countP (isAlterColumnAt "Post" "title") = 1 := by
  constructor
  · rfl
  · exact (C1_alter_column_on_castability
      ⟨fun _ => true, fun _ => ⟨"Post", [⟨"title", ColumnType.Text⟩], []⟩,
        fun _ _ => 0⟩ ["en"]
      [⟨"Post", [⟨"title", "int", false⟩], []⟩]
      [.alterColumn ⟨"Post", [⟨"title", "int"⟩], []⟩ ⟨"title", "text"⟩ "int"]
      ⟨"Post", [⟨"title", "int", false⟩], []⟩
      ⟨"Post", [⟨"title", "text"⟩], []⟩
      ⟨"title", "text"⟩ ⟨"title", "int"⟩ .Int64 .Text
      (by decide) (by decide) rfl rfl rfl (by decide) (by decide)
      (by decide) rfl rfl).1 (by decide)

theorem isAddColumnAt_handle (ch h : String) (d : SchemaDiff)
    (hd : isAddColumnAt ch h d = true) : d.collection.handle = ch := by
  cases d <;> simp [isAddColumnAt] at hd <;>
    simp [SchemaDiff.collection, hd.1]

theorem isDropColumnAt_handle (ch h : String) (d : SchemaDiff)
    (hd : isDropColumnAt ch h d = true) : d.collection.handle = ch := by
  cases d <;> simp [isDropColumnAt] at hd <;>
    simp [SchemaDiff.collection, hd.1]

theorem matchedHandle_eq_some (sd : SchemaDescription)
    (c : SchemaDescriptionColumn) (x : String)
    (h : matchedHandle sd c = some x) : x = c.handle := by
  unfold matchedHandle at h
  by_cases hf : ((sd.columns.find? (fun y => y.handle == c.handle)).isSome : Prop)
  · rw [if_pos hf] at h
    exact (Option.some.inj h).symm
  · rw [if_neg hf] at h
    exact Option.noConfusion h

/-- C6: for every declared column whose handle matches no live column,
`getSchemaDiff` emits exactly one `add_column` diff, and its copy-candidate
list is `copyCandidates` of the live columns: the live handles sharing the new
column's locale-base when the handle matches the localized pattern, else all
live handles. -/
theorem C6_add_column_copy_candidates (db : Database) (locales : List String)
    (schemas : List Schema) (diffs : List SchemaDiff) (s : Schema)
    (dbsd : SchemaDescription) (col : SchemaDescriptionColumn)
    (hnd : (schemas.map Schema.handle).Nodup) (hs : s ∈ schemas)
    (hex : db.collectionExists s.handle = true)
    (hrun : getSchemaDiff db locales schemas = .ok diffs)
    (hdb : databaseDescriptionToSchemaDescription locales
      (db.describeCollection s.handle) = .ok dbsd)
    (hSnd : ((schemaToSchemaDescription locales s).columns.map
      SchemaDescriptionColumn.handle).Nodup)
    (hcol : col ∈ (schemaToSchemaDescription locales s).columns)
    (hnolive : ∀ c ∈ dbsd.columns, c.handle ≠ col.handle) :
    diffs.countP (isAddColumnAt s.handle col.handle) = 1 ∧
    (∀ d ∈ diffs, isAddColumnAt s.handle col.handle d = true →
      d = .addColumn (schemaToSchemaDescription locales s) col
        (copyCandidates dbsd.columns col.handle)) := by
  obtain ⟨ds, hds⟩ := getSchemaDiff_ok_of_mem db locales schemas diffs hrun s hs
  obtain ⟨dbsd', hdb', hdecomp⟩ := diffOne_ok_decomp db locales s ds hex hds
  rw [hdb] at hdb'
  rw [← Except.ok.inj hdb'] at hdecomp
  have hmut : col.handle ∉ dbsd.columns.filterMap
      (matchedHandle (schemaToSchemaDescription locales s)) := by
    intro hmem
    obtain ⟨c, hc, hmh⟩ := List.mem_filterMap.mp hmem
    exact hnolive c hc (matchedHandle_eq_some _ c _ hmh).symm
  constructor
  · rw [getSchemaDiff_countP db locales s ds _
      (isAddColumnAt_handle s.handle col.handle) hds schemas diffs hrun hnd hs]
    rw [hdecomp, List.countP_append, List.countP_append, List.countP_append]
    have h1 : (dbsd.columns.filterMap
        (columnDiffFor db (schemaToSchemaDescription locales s))).countP
          (isAddColumnAt s.handle col.handle) = 0 := by
      rw [List.countP_eq_zero]
      intro d hd hpd
      obtain ⟨c, hc, hsome⟩ := List.mem_filterMap.mp hd
      rcases columnDiffFor_eq_some db _ c d hsome with ⟨_, rfl⟩ |
        ⟨column, a', b', _, _, _, _, rfl⟩ <;>
        simp [isAddColumnAt] at hpd
    have h2 : (addColumnDiffs (schemaToSchemaDescription locales s) dbsd.columns
        (dbsd.columns.filterMap
          (matchedHandle (schemaToSchemaDescription locales s)))).countP
          (isAddColumnAt s.handle col.handle) = 1 := by
      unfold addColumnDiffs
      rw [countP_filterMap]
      rw [List.countP_congr (q := fun c => c.handle == col.handle) ?_]
      · exact countP_key_eq_one SchemaDescriptionColumn.handle _ col hSnd hcol
      · intro column hcolumn
        by_cases hch : column.handle = col.handle
        · obtain rfl := List.inj_on_of_nodup_map hSnd hcolumn hcol hch
          have hcontains : (dbsd.columns.filterMap
              (matchedHandle (schemaToSchemaDescription locales s))).contains
                column.handle = false := by simpa using hmut
          rw [hcontains]
          simp [isAddColumnAt, schemaToSchemaDescription]
        · by_cases hcontains : ((dbsd.columns.filterMap
              (matchedHandle (schemaToSchemaDescription locales s))).contains
                column.handle : Prop)
          · rw [if_pos hcontains]
            simp [hch]
          · rw [if_neg hcontains]
            simp [isAddColumnAt, hch]
    have h3 : (indexDropDiffs (schemaToSchemaDescription locales s)
        dbsd.indexes).countP (isAddColumnAt s.handle col.handle) = 0 := by
      rw [List.countP_eq_zero]
      intro d hd hpd
      obtain ⟨i, _, rfl⟩ := mem_indexDropDiffs _ _ d hd
      simp [isAddColumnAt] at hpd
    have h4 : (indexAddDiffs (schemaToSchemaDescription locales s)
        (mutedIndexesOf dbsd.indexes)).countP
          (isAddColumnAt s.handle col.handle) = 0 := by
      rw [List.countP_eq_zero]
      intro d hd hpd
      obtain ⟨i, _, rfl⟩ := mem_indexAddDiffs _ _ d hd
      simp [isAddColumnAt] at hpd
    rw [h1, h2, h3, h4]
  · intro d hd hpd
    have hdds := getSchemaDiff_mem_sat db locales schemas diffs s ds _ hrun hnd hs hds
      (isAddColumnAt_handle s.handle col.handle) d hd hpd
    rw [hdecomp] at hdds
    rcases List.mem_append.mp hdds with hd' | hIdxAdd
    · rcases List.mem_append.mp hd' with hd'' | hIdxDrop
      · rcases List.mem_append.mp hd'' with hCol | hAdd
        · obtain ⟨c, hc, hsome⟩ := List.mem_filterMap.mp hCol
          rcases columnDiffFor_eq_some db _ c d hsome with ⟨_, rfl⟩ |
            ⟨column, a', b', _, _, _, _, rfl⟩ <;>
            simp [isAddColumnAt] at hpd
        · obtain ⟨column, hcolumn, _, rfl⟩ := mem_addColumnDiffs _ _ _ d hAdd
          have hch : column.handle = col.handle := by
            simpa [isAddColumnAt, schemaToSchemaDescription] using hpd
          obtain rfl := List.inj_on_of_nodup_map hSnd hcolumn hcol hch
          rfl
      · obtain ⟨i, _, rfl⟩ := mem_indexDropDiffs _ _ d hIdxDrop
        simp [isAddColumnAt] at hpd
    · obtain ⟨i, _, rfl⟩ := mem_indexAddDiffs _ _ d hIdxAdd
      simp [isAddColumnAt] at hpd

/-- Witness for C6 at a concrete input: declared `Post` gains a non-localized
`summary` field absent from the live collection; exactly one `add_column` is
emitted and its copy-candidates are all live handles (`["title"]`). -/
theorem C6_add_column_copy_candidates_witness :
    getSchemaDiff
        ⟨fun _ => true, fun _ => ⟨"Post", [⟨"title", ColumnType.Text⟩], []⟩,
          fun _ _ => 2⟩ ["en"]
        [⟨"Post", [⟨"title", "text", false⟩, ⟨"summary", "text", false⟩], []⟩] =
      .ok [.addColumn ⟨"Post", [⟨"title", "text"⟩, ⟨"summary", "text"⟩], []⟩
        ⟨"summary", "text"⟩ ["title"]] ∧
    ([(.addColumn ⟨"Post", [⟨"title", "text"⟩, ⟨"summary", "text"⟩], []⟩
        ⟨"summary", "text"⟩ ["title"] : SchemaDiff)]).countP
      (isAddColumnAt "Post" "summary") = 1 := by
  constructor
  · rfl
  · exact (C6_add_column_copy_candidates
      ⟨fun _ => true, fun _ => ⟨"Post", [⟨"title", ColumnType.Text⟩], []⟩,
        fun _ _ => 2⟩ ["en"]
      [⟨"Post", [⟨"title", "text", false⟩, ⟨"summary", "text", false⟩], []⟩]
      [.addColumn ⟨"Post", [⟨"title", "text"⟩, ⟨"summary", "text"⟩], []⟩
        ⟨"summary", "text"⟩ ["title"]]
      ⟨"Post", [⟨"title", "text", false⟩, ⟨"summary", "text", false⟩], []⟩
      ⟨"Post", [⟨"title", "text"⟩], []⟩
      ⟨"summary", "text"⟩
      (by decide) (by decide) rfl rfl rfl (by decide) (by decide)
      (by decide)).1

/-- C9: for every declared collection, `getSchemaDiff` emits at most one kind
of column-level diff per column handle: a handle with a `drop_column` diff
gets no `alter_column` and no `add_column` diff for the same collection, and
a handle with an `alter_column` diff gets no `add_column` diff. -/
theorem C9_column_diffs_exclusive (db : Database) (locales : List String)
    (schemas : List Schema) (diffs : List SchemaDiff) (s : Schema)
    (hnd : (schemas.map Schema.handle).Nodup) (hs : s ∈ schemas)
    (hrun : getSchemaDiff db locales schemas = .ok diffs) :
    ∀ h : String,
      (0 < diffs.countP (isDropColumnAt s.handle h) →
        diffs.countP (isAlterColumnAt s.handle h) = 0 ∧
        diffs.countP (isAddColumnAt s.handle h) = 0) ∧
      (0 < diffs.countP (isAlterColumnAt s.handle h) →
        diffs.countP (isAddColumnAt s.handle h) = 0) := by
  intro h
  obtain ⟨ds, hds⟩ := getSchemaDiff_ok_of_mem db locales schemas diffs hrun s hs
  have hiso : ∀ (p : SchemaDiff → Bool),
      (∀ d, p d = true → d.collection.handle = s.handle) →
      diffs.countP p = ds.countP p := by
    intro p hp
    exact getSchemaDiff_countP db locales s ds p hp hds schemas diffs hrun hnd hs
  rw [hiso _ (isDropColumnAt_handle s.handle h),
    hiso _ (isAlterColumnAt_handle s.handle h),
    hiso _ (isAddColumnAt_handle s.handle h)]
  cases hex : db.collectionExists s.handle with
  | false =>
    rw [diffOne_exists_false db locales s hex] at hds
    rw [← Except.ok.inj hds]
    refine ⟨fun hpos => absurd hpos (by simp [isDropColumnAt]), fun hpos => absurd hpos ?_⟩
    simp [isAlterColumnAt]
  | true =>
    obtain ⟨dbsd, _, hdecomp⟩ := diffOne_ok_decomp db locales s ds hex hds
    have memShape : ∀ d ∈ ds,
        (∃ c ∈ dbsd.columns, columnDiffFor db (schemaToSchemaDescription locales s) c = some d) ∨
        (∃ column, column ∈ (schemaToSchemaDescription locales s).columns ∧
          (dbsd.columns.filterMap
            (matchedHandle (schemaToSchemaDescription locales s))).contains
              column.handle = false ∧
          d = .addColumn (schemaToSchemaDescription locales s) column
            (copyCandidates dbsd.columns column.handle)) ∨
        (∃ i, d = .dropIndex (schemaToSchemaDescription locales s) i) ∨
        (∃ i, d = .addIndex (schemaToSchemaDescription locales s) i) := by
      intro d hd
      rw [hdecomp] at hd
      rcases List.mem_append.mp hd with hd' | hIdxAdd
      · rcases List.mem_append.mp hd' with hd'' | hIdxDrop
        · rcases List.mem_append.mp hd'' with hCol | hAdd
          · obtain ⟨c, hc, hsome⟩ := List.mem_filterMap.mp hCol
            exact Or.inl ⟨c, hc, hsome⟩
          · obtain ⟨column, hcolumn, hmut, rfl⟩ := mem_addColumnDiffs _ _ _ d hAdd
            exact Or.inr (Or.inl ⟨column, hcolumn, hmut, rfl⟩)
        · obtain ⟨i, _, rfl⟩ := mem_indexDropDiffs _ _ d hIdxDrop
          exact Or.inr (Or.inr (Or.inl ⟨i, rfl⟩))
      · obtain ⟨i, _, rfl⟩ := mem_indexAddDiffs _ _ d hIdxAdd
        exact Or.inr (Or.inr (Or.inr ⟨i, rfl⟩))
    constructor
    · intro hpos
      obtain ⟨d, hd, hpd⟩ := List.countP_pos_iff.mp hpos
      rcases memShape d hd with ⟨c, hc, hsome⟩ | ⟨column, _, _, rfl⟩ | ⟨i, rfl⟩ | ⟨i, rfl⟩
      · rcases columnDiffFor_eq_some db _ c d hsome with ⟨hnone, rfl⟩ |
          ⟨column, a', b', hfind', _, _, _, rfl⟩
        · have hch : c.handle = h := by
            simpa [isDropColumnAt, schemaToSchemaDescription] using hpd
          rw [hch] at hnone
          have hnodecl : ∀ x ∈ (schemaToSchemaDescription locales s).columns,
              x.handle ≠ h := by
            intro x hx
            have := List.find?_eq_none.mp hnone x hx
            simpa using this
          constructor
          · rw [List.countP_eq_zero]
            intro d' hd' hpd'
            rcases memShape d' hd' with ⟨c', hc', hsome'⟩ | ⟨column', _, _, rfl⟩ |
              ⟨i, rfl⟩ | ⟨i, rfl⟩
            · rcases columnDiffFor_eq_some db _ c' d' hsome' with ⟨_, rfl⟩ |
                ⟨column', a', b', hfind'', _, _, _, rfl⟩
              · simp [isAlterColumnAt] at hpd'
              · have hch' : c'.handle = h := by
                  simpa [isAlterColumnAt, schemaToSchemaDescription] using hpd'
                rw [hch'] at hfind''
                exact hnodecl column' (List.mem_of_find?_eq_some hfind'')
                  (by simpa using List.find?_some hfind'') |>.elim
            · simp [isAlterColumnAt] at hpd'
            · simp [isAlterColumnAt] at hpd'
            · simp [isAlterColumnAt] at hpd'
          · rw [List.countP_eq_zero]
            intro d' hd' hpd'
            rcases memShape d' hd' with ⟨c', hc', hsome'⟩ | ⟨column', hcolumn', _, rfl⟩ |
              ⟨i, rfl⟩ | ⟨i, rfl⟩
            · rcases columnDiffFor_eq_some db _ c' d' hsome' with ⟨_, rfl⟩ |
                ⟨column', a', b', _, _, _, _, rfl⟩ <;>
                simp [isAddColumnAt] at hpd'
            · have hch' : column'.handle = h := by
                simpa [isAddColumnAt, schemaToSchemaDescription] using hpd'
              exact (hnodecl column' hcolumn' hch').elim
            · simp [isAddColumnAt] at hpd'
            · simp [isAddColumnAt] at hpd'
        · simp [isDropColumnAt] at hpd
      · simp [isDropColumnAt] at hpd
      · simp [isDropColumnAt] at hpd
      · simp [isDropColumnAt] at hpd
    · intro hpos
      obtain ⟨d, hd, hpd⟩ := List.countP_pos_iff.mp hpos
      rcases memShape d hd with ⟨c, hc, hsome⟩ | ⟨column, _, _, rfl⟩ | ⟨i, rfl⟩ | ⟨i, rfl⟩
      · rcases columnDiffFor_eq_some db _ c d hsome with ⟨_, rfl⟩ |
          ⟨column, a', b', hfind', _, _, _, rfl⟩
        · simp [isAlterColumnAt] at hpd
        · have hch : c.handle = h := by
            simpa [isAlterColumnAt, schemaToSchemaDescription] using hpd
          have hmem : h ∈ dbsd.columns.filterMap
              (matchedHandle (schemaToSchemaDescription locales s)) := by
            refine List.mem_filterMap.mpr ⟨c, hc, ?_⟩
            rw [← hch]
            unfold matchedHandle
            rw [hfind']
            rfl
          rw [List.countP_eq_zero]
          intro d' hd' hpd'
          rcases memShape d' hd' with ⟨c', hc', hsome'⟩ | ⟨column', _, hmut', rfl⟩ |
            ⟨i, rfl⟩ | ⟨i, rfl⟩
          · rcases columnDiffFor_eq_some db _ c' d' hsome' with ⟨_, rfl⟩ |
              ⟨column', a'', b'', _, _, _, _, rfl⟩ <;>
              simp [isAddColumnAt] at hpd'
          · have hch' : column'.handle = h := by
              simpa [isAddColumnAt, schemaToSchemaDescription] using hpd'
            rw [hch'] at hmut'
            have hnotmem : h ∉ dbsd.columns.filterMap
                (matchedHandle (schemaToSchemaDescription locales s)) := by
              simpa using hmut'
            exact hnotmem hmem
          · simp [isAddColumnAt] at hpd'
          · simp [isAddColumnAt] at hpd'
      · simp [isAlterColumnAt] at hpd
      · simp [isAlterColumnAt] at hpd
      · simp [isAlterColumnAt] at hpd

/-- Witness for C9 at a concrete input: the run that emits an `alter_column`
for `Post.title` emits no `add_column` for the same handle. -/
theorem C9_column_diffs_exclusive_witness :
    ([(.alterColumn ⟨"Post", [⟨"title", "int"⟩], []⟩ ⟨"title", "text"⟩ "int" :
        SchemaDiff)]).countP (isAddColumnAt "Post" "title") = 0 :=
  (C9_column_diffs_exclusive
    ⟨fun _ => true, fun _ => ⟨"Post", [⟨"title", ColumnType.Text⟩], []⟩,
      fun _ _ => 0⟩ ["en"]
    [⟨"Post", [⟨"title", "int", false⟩], []⟩]
    [.alterColumn ⟨"Post", [⟨"title", "int"⟩], []⟩ ⟨"title", "text"⟩ "int"]
    ⟨"Post", [⟨"title", "int", false⟩], []⟩
    (by decide) (by decide) rfl "title").2 (by decide)

theorem schemaColumnsStep_append (locales : List String)
    (acc : List SchemaDescriptionColumn) (f : Field) :
    schemaColumnsStep locales acc f = acc ++ fieldColumnsSpec locales f := by
  unfold schemaColumnsStep fieldColumnsSpec
  by_cases hrel : f.type == "relation"
  · simp [hrel]
  · by_cases hloc : f.localized <;> simp [hrel, hloc]

theorem indexIsLocalized_eq (fields : List Field) (index : SchemaIndexDecl) :
    indexIsLocalized fields index = referencesLocalized fields index := by
  unfold indexIsLocalized referencesLocalized
  rw [foldl_or_eq_any]
  simp

theorem localizeIndexFields_eq (fields : List Field) (code : String)
    (idxFields : List (String × Direction))
    (hnd : ((qualifyRefsSpec fields code idxFields).map Prod.fst).Nodup) :
    localizeIndexFields fields code idxFields =
      qualifyRefsSpec fields code idxFields := by
  unfold localizeIndexFields
  have hfun : (fun (acc : List (String × Direction)) (p : String × Direction) =>
      match fields.find? (fun f => f.handle == p.1) with
      | some f =>
        if f.localized then objSet acc (p.1 ++ "__" ++ code) p.2
        else objSet acc p.1 p.2
      | none => objSet acc p.1 p.2) =
      (fun acc p => objSet acc (qualifyRef fields code p).1 (qualifyRef fields code p).2) := by
    funext acc p
    unfold qualifyRef
    cases hf : fields.find? (fun f => f.handle == p.1) with
    | none => rfl
    | some f =>
      by_cases hloc : f.localized <;> simp [hloc]
  rw [hfun, ← List.foldl_map (qualifyRef fields code)
    (fun acc p => objSet acc p.1 p.2) idxFields []]
  exact foldl_objSet_eq_append _ [] (by simpa [qualifyRefsSpec] using hnd)

theorem schemaIndexesStep_append (locales : List String) (fields : List Field)
    (acc : List SchemaDescriptionIndex) (index : SchemaIndexDecl)
    (hnd : ∀ code ∈ locales,
      ((qualifyRefsSpec fields code index.fields).map Prod.fst).Nodup) :
    schemaIndexesStep locales fields acc index =
      acc ++ indexDescsSpec locales fields index := by
  unfold schemaIndexesStep indexDescsSpec
  rw [indexIsLocalized_eq]
  by_cases hloc : referencesLocalized fields index
  · rw [if_pos hloc, if_pos hloc]
    congr 1
    apply List.map_congr_left
    intro code hcode
    rw [localizeIndexFields_eq fields code index.fields (hnd code hcode)]
  · rw [if_neg hloc, if_neg hloc]

/-- C7: `schemaToSchemaDescription` coincides with the specification-side
expansion: a localized field becomes exactly one column per configured locale
with handle `h__c`, a relation field yields no column, non-localized fields
and indexes are copied verbatim, and an index referencing a localized field
is expanded once per locale, its handle suffixed and exactly its localized
field references qualified with that locale (the hypothesis rules out key
collisions inside one expanded index's reference object). -/
theorem C7_localized_expansion (locales : List String) (schema : Schema)
    (hq : ∀ index ∈ schema.indexes, ∀ code ∈ locales,
      ((qualifyRefsSpec schema.fields code index.fields).map Prod.fst).Nodup) :
    schemaToSchemaDescription locales schema =
      schemaToSchemaDescriptionSpec locales schema := by
  unfold schemaToSchemaDescription schemaToSchemaDescriptionSpec
  congr 1
  · rw [foldl_step_append (schemaColumnsStep locales) (fieldColumnsSpec locales)
      schema.fields (fun acc f _ => schemaColumnsStep_append locales acc f) []]
    rfl
  · rw [foldl_step_append (schemaIndexesStep locales schema.fields)
      (indexDescsSpec locales schema.fields) schema.indexes
      (fun acc index hidx => schemaIndexesStep_append locales schema.fields acc index
        (hq index hidx)) []]
    rfl

/-- Witness for C7 at a concrete input: `Post` with a localized `title`, a
relation `author`, a plain `postDate`, and a unique index over `title` and
`postDate`, expanded for locales `en` and `fr`. -/
theorem C7_localized_expansion_witness :
    schemaToSchemaDescription ["en", "fr"]
      ⟨"Post",
       [⟨"title", "text", true⟩, ⟨"author", "relation", false⟩,
        ⟨"postDate", "datetime", false⟩],
       [⟨"Post_title", "unique", [("title", .asc), ("postDate", .asc)]⟩]⟩ =
      schemaToSchemaDescriptionSpec ["en", "fr"]
        ⟨"Post",
         [⟨"title", "text", true⟩, ⟨"author", "relation", false⟩,
          ⟨"postDate", "datetime", false⟩],
         [⟨"Post_title", "unique", [("title", .asc), ("postDate", .asc)]⟩]⟩ :=
  C7_localized_expansion ["en", "fr"]
    ⟨"Post",
     [⟨"title", "text", true⟩, ⟨"author", "relation", false⟩,
      ⟨"postDate", "datetime", false⟩],
     [⟨"Post_title", "unique", [("title", .asc), ("postDate", .asc)]⟩]⟩
    (by decide)

/-- Counterexample for C3: expanding the localized field `title` for locales
`{en, fr}` and collapsing the resulting two-column live description does NOT
reproduce the single base column handle `title` — the collapse keeps the two
locale-suffixed column handles `title__en`, `title__fr` verbatim
(`databaseDescriptionToSchemaDescription` never collapses column handles,
only index column references). -/
theorem C3_roundtrip_counterexample :
    (schemaToSchemaDescription ["en", "fr"]
        ⟨"Post", [⟨"title", "text", true⟩], []⟩).columns.map
      SchemaDescriptionColumn.handle = ["title__en", "title__fr"] ∧
    (databaseDescriptionToSchemaDescription ["en", "fr"]
        ⟨"Post", [⟨"title__en", .Text⟩, ⟨"title__fr", .Text⟩], []⟩).map
      (fun d => d.columns.map SchemaDescriptionColumn.handle) =
      .ok ["title__en", "title__fr"] ∧
    ¬((databaseDescriptionToSchemaDescription ["en", "fr"]
        ⟨"Post", [⟨"title__en", .Text⟩, ⟨"title__fr", .Text⟩], []⟩).map
      (fun d => d.columns.map SchemaDescriptionColumn.handle) =
      .ok ["title"]) := by
  refine ⟨by decide, rfl, ?_⟩
  intro hc
  have hlist : (["title__en", "title__fr"] : List String) = ["title"] :=
    Except.ok.inj hc
  exact absurd hlist (by decide)

theorem mapColumnType_roundtrip (s : String) (t : ColumnType)
    (h : mapStringToColumnType s = .ok t) :
    ∃ u, mapColumnTypeToFieldType t = .ok u := by
  unfold mapStringToColumnType at h
  split_ifs at h <;>
    first
    | exact Except.noConfusion h
    | · obtain rfl := Except.ok.inj h
        exact ⟨_, rfl⟩

theorem collapseDbColumns_forall₂ (cols : List SchemaDescriptionColumn)
    (dcols : List DbColumn)
    (hrel : List.Forall₂
      (fun (c : SchemaDescriptionColumn) (d : DbColumn) =>
        d.name = c.handle ∧ mapStringToColumnType c.type = .ok d.type)
      cols dcols) :
    ∃ out, collapseDbColumns dcols = .ok out ∧
      out.map SchemaDescriptionColumn.handle =
        cols.map SchemaDescriptionColumn.handle := by
  induction hrel with
  | nil => exact ⟨[], rfl, rfl⟩
  | @cons a b l₁ l₂ hab _ ih =>
    obtain ⟨u, hu⟩ := mapColumnType_roundtrip a.type b.type hab.2
    obtain ⟨out, hout, hmap⟩ := ih
    refine ⟨⟨b.name, u⟩ :: out, ?_, ?_⟩
    · unfold collapseDbColumns
      rw [hu, hout]
    · simp [hmap, hab.1]

/-- Amended C3: collapsing a live description whose columns are exactly the
expansion's columns (same handles, types mapped through
`mapStringToColumnType`) succeeds and preserves the expanded, locale-suffixed
column handles verbatim — it does not restore the base handles; only index
column references are collapsed (via `collapseDbIndex`), and index handles
keep their locale suffix. -/
theorem C3_collapse_keeps_expanded_columns (locales : List String)
    (schema : Schema) (live : DbDescription)
    (hcols : List.Forall₂
      (fun (c : SchemaDescriptionColumn) (d : DbColumn) =>
        d.name = c.handle ∧ mapStringToColumnType c.type = .ok d.type)
      (schemaToSchemaDescription locales schema).columns live.columns) :
    ∃ out, databaseDescriptionToSchemaDescription locales live = .ok out ∧
      out.handle = live.collection ∧
      out.columns.map SchemaDescriptionColumn.handle =
        (schemaToSchemaDescription locales schema).columns.map
          SchemaDescriptionColumn.handle ∧
      out.indexes = live.indexes.map collapseDbIndex := by
  obtain ⟨outCols, hout, hmap⟩ :=
    collapseDbColumns_forall₂ (schemaToSchemaDescription locales schema).columns
      live.columns hcols
  refine ⟨⟨live.collection, outCols, live.indexes.map collapseDbIndex⟩, ?_, rfl, hmap, rfl⟩
  unfold databaseDescriptionToSchemaDescription
  rw [hout]

/-- Witness for the amended C3 at a concrete input: the collapse of the
two-column live description of localized `title` keeps `title__en` and
`title__fr`. -/
theorem C3_collapse_keeps_expanded_columns_witness :
    (databaseDescriptionToSchemaDescription ["en", "fr"]
        ⟨"Post", [⟨"title__en", .Text⟩, ⟨"title__fr", .Text⟩], []⟩).map
      (fun d => d.columns.map SchemaDescriptionColumn.handle) =
      .ok ["title__en", "title__fr"] := by
  obtain ⟨out, h1, _, h3, _⟩ := C3_collapse_keeps_expanded_columns ["en", "fr"]
    ⟨"Post", [⟨"title", "text", true⟩], []⟩
    ⟨"Post", [⟨"title__en", .Text⟩, ⟨"title__fr", .Text⟩], []⟩
    (List.Forall₂.cons ⟨rfl, rfl⟩ (List.Forall₂.cons ⟨rfl, rfl⟩ List.Forall₂.nil))
  rw [h1, Except.map, h3]
  rfl

theorem subOperations_rank_sorted (q : AlterCollectionQuery) :
    q.subOperations.Pairwise (fun x y => x.rank ≤ y.rank) := by
  have hconst : ∀ {α : Type} (f : α → AlterSubOp) (l : List α) (c : Nat),
      (∀ x, (f x).rank = c) →
      (l.map f).Pairwise (fun x y => AlterSubOp.rank x ≤ AlterSubOp.rank y) := by
    intro α f l c hf
    rw [List.pairwise_map]
    exact pairwise_of_total _ (fun a b => by rw [hf a, hf b]) l
  have hrank : ∀ {α : Type} (f : α → AlterSubOp) (l : List α) (c : Nat),
      (∀ x, (f x).rank = c) → ∀ o ∈ l.map f, o.rank ≤ c := by
    intro α f l c hf o ho
    obtain ⟨x, _, rfl⟩ := List.mem_map.mp ho
    exact le_of_eq (hf x)
  have hboth : ∀ {α : Type} (f : α → AlterSubOp) (l : List α) (c : Nat),
      (∀ x, (f x).rank = c) → ∀ o ∈ l.map f, c ≤ o.rank ∧ o.rank ≤ c := by
    intro α f l c hf o ho
    obtain ⟨x, _, rfl⟩ := List.mem_map.mp ho
    rw [hf x]
    exact ⟨le_refl c, le_refl c⟩
  have step : ∀ (l₁ l₂ : List AlterSubOp) (c₁ c₂ : Nat), c₁ ≤ c₂ →
      l₁.Pairwise (fun x y => AlterSubOp.rank x ≤ AlterSubOp.rank y) →
      (∀ a ∈ l₁, a.rank ≤ c₁) →
      l₂.Pairwise (fun x y => AlterSubOp.rank x ≤ AlterSubOp.rank y) →
      (∀ a ∈ l₂, c₂ ≤ a.rank ∧ a.rank ≤ c₂) →
      (l₁ ++ l₂).Pairwise (fun x y => AlterSubOp.rank x ≤ AlterSubOp.rank y) ∧
        (∀ a ∈ l₁ ++ l₂, a.rank ≤ c₂) := by
    intro l₁ l₂ c₁ c₂ hc hp₁ hb₁ hp₂ hb₂
    constructor
    · refine (List.pairwise_append).mpr ⟨hp₁, hp₂, ?_⟩
      intro a ha b hb
      exact le_trans (le_trans (hb₁ a ha) hc) (hb₂ b hb).1
    · intro a ha
      rcases List.mem_append.mp ha with h | h
      · exact le_trans (hb₁ a h) hc
      · exact (hb₂ a h).2
  have g0 := And.intro
    (hconst (fun p => AlterSubOp.addColumn p.1 p.2) q.addColumns 0 (fun _ => rfl))
    (hrank (fun p => AlterSubOp.addColumn p.1 p.2) q.addColumns 0 (fun _ => rfl))
  have g1 := step _ _ 0 1 (by omega) g0.1 g0.2
    (hconst (fun p => AlterSubOp.alterColumn p.1 p.2) q.alterColumns 1 (fun _ => rfl))
    (hboth (fun p => AlterSubOp.alterColumn p.1 p.2) q.alterColumns 1 (fun _ => rfl))
  have g2 := step _ _ 1 2 (by omega) g1.1 g1.2
    (hconst (fun n => AlterSubOp.dropColumn n) q.dropColumns 2 (fun _ => rfl))
    (hboth (fun n => AlterSubOp.dropColumn n) q.dropColumns 2 (fun _ => rfl))
  have g3 := step _ _ 2 3 (by omega) g2.1 g2.2
    (hconst (fun i => AlterSubOp.addIndex i) q.addIndexes 3 (fun _ => rfl))
    (hboth (fun i => AlterSubOp.addIndex i) q.addIndexes 3 (fun _ => rfl))
  have g4 := step _ _ 3 4 (by omega) g3.1 g3.2
    (hconst (fun n => AlterSubOp.dropIndex n) q.dropIndexes 4 (fun _ => rfl))
    (hboth (fun n => AlterSubOp.dropIndex n) q.dropIndexes 4 (fun _ => rfl))
  exact g4.1


/-- C2: every `AlterCollection` query in the batch built by
`executeSchemaMigration` lists its sub-operations grouped in the order
add-column(s), alter-column(s), drop-column(s), add-index(es),
drop-index(es): the kind rank is monotone along the sub-operation list. -/
theorem C2_suboperation_order (interactive : Bool)
    (answers : List (Option String)) (diffs : List SchemaDiff)
    (qs : List MigQuery) (a : AlterCollectionQuery)
    (hrun : executeSchemaMigration interactive answers diffs = .ok qs)
    (hmem : MigQuery.alter a ∈ qs) :
    a.subOperations.Pairwise (fun x y => x.rank ≤ y.rank) :=
  subOperations_rank_sorted a

/-- Witness for C2 at a concrete input: a confirmed `drop_column` followed by
an `add_index` against the same collection fold into one `AlterCollection`
whose sub-operations come out add-index after drop-column grouping, i.e. with
monotone kind ranks. -/
theorem C2_suboperation_order_witness :
    executeSchemaMigration true [some "drop"]
      [.dropColumn ⟨"Post", [], []⟩ ⟨"title", "text"⟩,
       .addIndex ⟨"Post", [], []⟩ ⟨"Post_title", "index", [("title", .asc)]⟩] =
      .ok [.alter ⟨"Post", [], [], ["title"],
        [⟨"Post_title", .Index, [("title", .asc)]⟩], []⟩] ∧
    (⟨"Post", [], [], ["title"], [⟨"Post_title", .Index, [("title", .asc)]⟩],
      []⟩ : AlterCollectionQuery).subOperations.Pairwise
        (fun x y => x.rank ≤ y.rank) := by
  constructor
  · rfl
  · exact C2_suboperation_order true [some "drop"]
      [.dropColumn ⟨"Post", [], []⟩ ⟨"title", "text"⟩,
       .addIndex ⟨"Post", [], []⟩ ⟨"Post_title", "index", [("title", .asc)]⟩]
      [.alter ⟨"Post", [], [], ["title"],
        [⟨"Post_title", .Index, [("title", .asc)]⟩], []⟩]
      ⟨"Post", [], [], ["title"], [⟨"Post_title", .Index, [("title", .asc)]⟩], []⟩
      rfl (List.mem_singleton.mpr rfl)

theorem mapGet_mem (k : String) (v : AlterCollectionQuery) :
    ∀ m, mapGet m k = some v → (k, v) ∈ m := by
  intro m
  induction m with
  | nil => intro h; exact Option.noConfusion h
  | cons q t ih =>
    intro h
    obtain ⟨k', v'⟩ := q
    by_cases hk : k' = k
    · subst hk
      simp [mapGet, List.find?] at h
      subst h
      exact List.mem_cons_self _ _
    · have hb : (k' == k) = false := by simpa using hk
      simp only [mapGet, List.find?, hb] at h
      exact List.mem_cons_of_mem _ (ih h)

theorem getAlter_handle (m : List (String × AlterCollectionQuery)) (ch : String)
    (hall : ∀ p ∈ m, (p.2 : AlterCollectionQuery).handle = p.1) :
    (getAlter m ch).handle = ch := by
  unfold getAlter
  cases hm : mapGet m ch with
  | none => rfl
  | some q => exact hall (ch, q) (mapGet_mem ch q m hm)

theorem getD_stateAlterCounts (st : MigState) (hh : String) :
    (stateAlterCounts st hh).getD (0, 0, 0, 0, 0) =
      opCounts (getAlter st.alterCollections hh) := by
  unfold stateAlterCounts getAlter
  cases hm : mapGet st.alterCollections hh with
  | none => rfl
  | some q => rfl

theorem opCounts_addColumn (q : AlterCollectionQuery) (c : Column)
    (o : Option String) :
    opCounts (q.addColumn c o) = addCounts (opCounts q) (1, 0, 0, 0, 0) := by
  simp [opCounts, addCounts, AlterCollectionQuery.addColumn]

theorem opCounts_alterColumn (q : AlterCollectionQuery) (n : String) (c : Column) :
    opCounts (q.alterColumn n c) = addCounts (opCounts q) (0, 1, 0, 0, 0) := by
  simp [opCounts, addCounts, AlterCollectionQuery.alterColumn]

theorem opCounts_dropColumn (q : AlterCollectionQuery) (n : String) :
    opCounts (q.dropColumn n) = addCounts (opCounts q) (0, 0, 1, 0, 0) := by
  simp [opCounts, addCounts, AlterCollectionQuery.dropColumn]

theorem opCounts_addIndex (q : AlterCollectionQuery) (i : IndexDef) :
    opCounts (q.addIndex i) = addCounts (opCounts q) (0, 0, 0, 1, 0) := by
  simp [opCounts, addCounts, AlterCollectionQuery.addIndex]

theorem opCounts_dropIndex (q : AlterCollectionQuery) (n : String) :
    opCounts (q.dropIndex n) = addCounts (opCounts q) (0, 0, 0, 0, 1) := by
  simp [opCounts, addCounts, AlterCollectionQuery.dropIndex]

theorem alterUpdate_counts (m : List (String × AlterCollectionQuery)) (ch : String)
    (g : AlterCollectionQuery → AlterCollectionQuery)
    (contrib : Nat × Nat × Nat × Nat × Nat)
    (hg : ∀ q, opCounts (g q) = addCounts (opCounts q) contrib) :
    ∀ hh, (mapGet (mapSet (ensureAlter m ch) ch
        (g (getAlter (ensureAlter m ch) ch))) hh).map opCounts =
      if hh = ch then
        some (addCounts (((mapGet m hh).map opCounts).getD (0, 0, 0, 0, 0)) contrib)
      else (mapGet m hh).map opCounts := by
  intro hh
  by_cases hch : hh = ch
  · subst hch
    rw [if_pos rfl, mapGet_mapSet_self, getAlter_ensureAlter]
    simp only [Option.map_some']
    rw [hg]
    unfold getAlter
    cases hm : mapGet m hh with
    | none => rfl
    | some q => rfl
  · rw [if_neg hch, mapGet_mapSet_ne ch hh _ hch, mapGet_ensureAlter_ne m ch hh hch]

theorem alterUpdate_nodup (m : List (String × AlterCollectionQuery)) (ch : String)
    (v : AlterCollectionQuery) (hnd : (m.map Prod.fst).Nodup) :
    ((mapSet (ensureAlter m ch) ch v).map Prod.fst).Nodup :=
  mapSet_keys_nodup ch v _ (ensureAlter_keys_nodup ch m hnd)

theorem alterUpdate_handle_inv (m : List (String × AlterCollectionQuery))
    (ch : String) (g : AlterCollectionQuery → AlterCollectionQuery)
    (hgh : ∀ q, (g q).handle = q.handle)
    (hall : ∀ p ∈ m, (p.2 : AlterCollectionQuery).handle = p.1) :
    ∀ p ∈ mapSet (ensureAlter m ch) ch (g (getAlter (ensureAlter m ch) ch)),
      (p.2 : AlterCollectionQuery).handle = p.1 := by
  have hall' := ensureAlter_handle_inv ch m hall
  have hv : (g (getAlter (ensureAlter m ch) ch)).handle = ch := by
    rw [hgh, getAlter_handle _ ch hall']
  exact mapSet_handle_inv ch _ hv _ hall'

theorem migStep_effects (i : Bool) (st st' : MigState) (d : SchemaDiff)
    (hmute : st.muteNewColumn = [])
    (h : migStep i st d = .ok st') :
    st'.muteNewColumn = [] ∧
    st'.createCollections.length =
      st.createCollections.length + (if isAddCollectionDiff d then 1 else 0) ∧
    (∀ hh, stateAlterCounts st' hh =
      if targetsAlterable hh d then
        some (addCounts ((stateAlterCounts st hh).getD (0, 0, 0, 0, 0))
          (diffContribution d))
      else stateAlterCounts st hh) ∧
    ((st.alterCollections.map Prod.fst).Nodup →
      (st'.alterCollections.map Prod.fst).Nodup) ∧
    ((∀ p ∈ st.alterCollections, (p.2 : AlterCollectionQuery).handle = p.1) →
      ∀ p ∈ st'.alterCollections, (p.2 : AlterCollectionQuery).handle = p.1) := by
  cases d with
  | addCollection coll =>
    unfold migStep at h
    cases hc : buildCreateColumns coll.columns with
    | error e => simp only [hc] at h; exact Except.noConfusion h
    | ok cols =>
      simp only [hc] at h
      cases hi : buildCreateIndexes coll.indexes with
      | error e => simp only [hi] at h; exact Except.noConfusion h
      | ok idxs =>
        simp only [hi, Except.ok.injEq] at h
        subst h
        refine ⟨hmute, by simp [isAddCollectionDiff], ?_, fun hnd => hnd,
          fun hall => hall⟩
        intro hh
        have ht : targetsAlterable hh (SchemaDiff.addCollection coll) = false := rfl
        rw [if_neg (by simp [ht])]
        rfl
  | addColumn coll column copyColumn =>
    have main : ∀ (choice : Option String) (rest : List (Option String))
        (t : ColumnType),
        st' = { st with
          alterCollections :=
            mapSet (ensureAlter st.alterCollections coll.handle) coll.handle
              ((getAlter (ensureAlter st.alterCollections coll.handle)
                coll.handle).addColumn ⟨column.handle, t⟩ choice)
          muteNewColumn := []
          answers := rest } →
        st'.muteNewColumn = [] ∧
        st'.createCollections.length =
          st.createCollections.length +
            (if isAddCollectionDiff (SchemaDiff.addColumn coll column copyColumn)
              then 1 else 0) ∧
        (∀ hh, stateAlterCounts st' hh =
          if targetsAlterable hh (SchemaDiff.addColumn coll column copyColumn) then
            some (addCounts ((stateAlterCounts st hh).getD (0, 0, 0, 0, 0))
              (diffContribution (SchemaDiff.addColumn coll column copyColumn)))
          else stateAlterCounts st hh) ∧
        ((st.alterCollections.map Prod.fst).Nodup →
          (st'.alterCollections.map Prod.fst).Nodup) ∧
        ((∀ p ∈ st.alterCollections, (p.2 : AlterCollectionQuery).handle = p.1) →
          ∀ p ∈ st'.alterCollections,
            (p.2 : AlterCollectionQuery).handle = p.1) := by
      intro choice rest t hst'
      subst hst'
      refine ⟨rfl, by simp [isAddCollectionDiff], ?_,
        fun hnd => alterUpdate_nodup _ _ _ hnd,
        fun hall => alterUpdate_handle_inv st.alterCollections coll.handle
          (fun q => q.addColumn ⟨column.handle, t⟩ choice) (fun q => rfl) hall⟩
      intro hh
      have hupd := alterUpdate_counts st.alterCollections coll.handle
        (fun q => q.addColumn ⟨column.handle, t⟩ choice) (1, 0, 0, 0, 0)
        (fun q => opCounts_addColumn q _ _) hh
      by_cases hch : hh = coll.handle
      · have ht : targetsAlterable hh
            (SchemaDiff.addColumn coll column copyColumn) = true := by
          simp [targetsAlterable, SchemaDiff.collection, hch]
        rw [if_pos ht, if_pos hch] at *
        simpa [stateAlterCounts, diffContribution] using hupd
      · have ht : ¬(targetsAlterable hh
            (SchemaDiff.addColumn coll column copyColumn) = true) := by
          simp [targetsAlterable, SchemaDiff.collection]
          exact fun hx => hch hx.symm
        rw [if_neg ht]
        rw [if_neg hch] at hupd
        simpa [stateAlterCounts] using hupd
    unfold migStep at h
    rw [hmute] at h
    simp only [List.contains_nil, Bool.false_eq_true, if_false] at h
    by_cases hcopy : copyColumn.isEmpty
    · rw [if_pos hcopy] at h
      cases ht : mapStringToColumnType column.type with
      | error e => simp only [ht] at h; exact Except.noConfusion h
      | ok t =>
        simp only [ht, Except.ok.injEq] at h
        exact main none st.answers t h.symm
    · rw [if_neg hcopy] at h
      cases i with
      | false => exact Except.noConfusion h
      | true =>
        simp only [if_true] at h
        rcases hans : st.answers with _ | ⟨_ | sa, rest⟩
        · simp only [hans] at h
          exact Except.noConfusion h
        · simp only [hans] at h
          exact Except.noConfusion h
        · simp only [hans] at h
          by_cases habort : sa == "abort"
          · rw [if_pos habort] at h
            exact Except.noConfusion h
          · rw [if_neg habort] at h
            by_cases hempty : sa == "empty"
            · rw [if_pos hempty] at h
              cases ht : mapStringToColumnType column.type with
              | error e => simp only [ht] at h; exact Except.noConfusion h
              | ok t =>
                simp only [ht, Except.ok.injEq] at h
                exact main none rest t h.symm
            · rw [if_neg hempty] at h
              cases ht : mapStringToColumnType column.type with
              | error e => simp only [ht] at h; exact Except.noConfusion h
              | ok t =>
                simp only [ht, Except.ok.injEq] at h
                exact main (some sa) rest t h.symm
  | alterColumn coll column ty =>
    unfold migStep at h
    cases ht : mapStringToColumnType ty with
    | error e => simp only [ht] at h; exact Except.noConfusion h
    | ok t =>
      simp only [ht, Except.ok.injEq] at h
      subst h
      refine ⟨hmute, by simp [isAddCollectionDiff], ?_,
        fun hnd => alterUpdate_nodup _ _ _ hnd,
        fun hall => alterUpdate_handle_inv st.alterCollections coll.handle
          (fun q => q.alterColumn column.handle ⟨column.handle, t⟩)
          (fun q => rfl) hall⟩
      intro hh
      have hupd := alterUpdate_counts st.alterCollections coll.handle
        (fun q => q.alterColumn column.handle ⟨column.handle, t⟩) (0, 1, 0, 0, 0)
        (fun q => opCounts_alterColumn q _ _) hh
      by_cases hch : hh = coll.handle
      · have htg : targetsAlterable hh
            (SchemaDiff.alterColumn coll column ty) = true := by
          simp [targetsAlterable, SchemaDiff.collection, hch]
        rw [if_pos htg, if_pos hch] at *
        simpa [stateAlterCounts, diffContribution] using hupd
      · have htg : ¬(targetsAlterable hh
            (SchemaDiff.alterColumn coll column ty) = true) := by
          simp [targetsAlterable, SchemaDiff.collection]
          exact fun hx => hch hx.symm
        rw [if_neg htg]
        rw [if_neg hch] at hupd
        simpa [stateAlterCounts] using hupd
  | dropColumn coll column =>
    unfold migStep at h
    cases i with
    | false => exact Except.noConfusion h
    | true =>
      simp only [if_true] at h
      rcases hans : st.answers with _ | ⟨_ | sa, rest⟩
      · simp only [hans] at h
        exact Except.noConfusion h
      · simp only [hans] at h
        exact Except.noConfusion h
      · simp only [hans] at h
        by_cases habort : sa == "abort"
        · rw [if_pos habort] at h
          exact Except.noConfusion h
        · rw [if_neg habort] at h
          simp only [Except.ok.injEq] at h
          subst h
          refine ⟨hmute, by simp [isAddCollectionDiff], ?_,
            fun hnd => alterUpdate_nodup _ _ _ hnd,
            fun hall => alterUpdate_handle_inv st.alterCollections coll.handle
              (fun q => q.dropColumn column.handle) (fun q => rfl) hall⟩
          intro hh
          have hupd := alterUpdate_counts st.alterCollections coll.handle
            (fun q => q.dropColumn column.handle) (0, 0, 1, 0, 0)
            (fun q => opCounts_dropColumn q _) hh
          by_cases hch : hh = coll.handle
          · have htg : targetsAlterable hh
                (SchemaDiff.dropColumn coll column) = true := by
              simp [targetsAlterable, SchemaDiff.collection, hch]
            rw [if_pos htg, if_pos hch] at *
            simpa [stateAlterCounts, diffContribution] using hupd
          · have htg : ¬(targetsAlterable hh
                (SchemaDiff.dropColumn coll column) = true) := by
              simp [targetsAlterable, SchemaDiff.collection]
              exact fun hx => hch hx.symm
            rw [if_neg htg]
            rw [if_neg hch] at hupd
            simpa [stateAlterCounts] using hupd
  | addIndex coll index =>
    unfold migStep at h
    cases ht : mapStringToIndexType index.type with
    | error e => simp only [ht] at h; exact Except.noConfusion h
    | ok t =>
      simp only [ht, Except.ok.injEq] at h
      subst h
      refine ⟨hmute, by simp [isAddCollectionDiff], ?_,
        fun hnd => alterUpdate_nodup _ _ _ hnd,
        fun hall => alterUpdate_handle_inv st.alterCollections coll.handle
          (fun q => q.addIndex ⟨index.handle, t, index.columns⟩)
          (fun q => rfl) hall⟩
      intro hh
      have hupd := alterUpdate_counts st.alterCollections coll.handle
        (fun q => q.addIndex ⟨index.handle, t, index.columns⟩) (0, 0, 0, 1, 0)
        (fun q => opCounts_addIndex q _) hh
      by_cases hch : hh = coll.handle
      · have htg : targetsAlterable hh
            (SchemaDiff.addIndex coll index) = true := by
          simp [targetsAlterable, SchemaDiff.collection, hch]
        rw [if_pos htg, if_pos hch] at *
        simpa [stateAlterCounts, diffContribution] using hupd
      · have htg : ¬(targetsAlterable hh
            (SchemaDiff.addIndex coll index) = true) := by
          simp [targetsAlterable, SchemaDiff.collection]
          exact fun hx => hch hx.symm
        rw [if_neg htg]
        rw [if_neg hch] at hupd
        simpa [stateAlterCounts] using hupd
  | dropIndex coll index =>
    unfold migStep at h
    simp only [Except.ok.injEq] at h
    subst h
    refine ⟨hmute, by simp [isAddCollectionDiff], ?_,
      fun hnd => alterUpdate_nodup _ _ _ hnd,
      fun hall => alterUpdate_handle_inv st.alterCollections coll.handle
        (fun q => q.dropIndex index.handle) (fun q => rfl) hall⟩
    intro hh
    have hupd := alterUpdate_counts st.alterCollections coll.handle
      (fun q => q.dropIndex index.handle) (0, 0, 0, 0, 1)
      (fun q => opCounts_dropIndex q _) hh
    by_cases hch : hh = coll.handle
    · have htg : targetsAlterable hh (SchemaDiff.dropIndex coll index) = true := by
        simp [targetsAlterable, SchemaDiff.collection, hch]
      rw [if_pos htg, if_pos hch] at *
      simpa [stateAlterCounts, diffContribution] using hupd
    · have htg : ¬(targetsAlterable hh
          (SchemaDiff.dropIndex coll index) = true) := by
        simp [targetsAlterable, SchemaDiff.collection]
        exact fun hx => hch hx.symm
      rw [if_neg htg]
      rw [if_neg hch] at hupd
      simpa [stateAlterCounts] using hupd

theorem addCounts_zero_left (b : Nat × Nat × Nat × Nat × Nat) :
    addCounts (0, 0, 0, 0, 0) b = b := by
  obtain ⟨b1, b2, b3, b4, b5⟩ := b
  simp [addCounts]

theorem addCounts_zero_right (a : Nat × Nat × Nat × Nat × Nat) :
    addCounts a (0, 0, 0, 0, 0) = a := by
  obtain ⟨a1, a2, a3, a4, a5⟩ := a
  simp [addCounts]

theorem addCounts_assoc (a b c : Nat × Nat × Nat × Nat × Nat) :
    addCounts (addCounts a b) c = addCounts a (addCounts b c) := by
  obtain ⟨a1, a2, a3, a4, a5⟩ := a
  obtain ⟨b1, b2, b3, b4, b5⟩ := b
  obtain ⟨c1, c2, c3, c4, c5⟩ := c
  simp [addCounts, Nat.add_assoc]

theorem diffCountsAt_cons (d : SchemaDiff) (rest : List SchemaDiff) (hh : String) :
    diffCountsAt (d :: rest) hh =
      addCounts (if targetsAlterable hh d then diffContribution d else (0, 0, 0, 0, 0))
        (diffCountsAt rest hh) := by
  unfold diffCountsAt countAddColumnDiffs countAlterColumnDiffs countDropColumnDiffs
    countAddIndexDiffs countDropIndexDiffs
  rw [List.countP_cons, List.countP_cons, List.countP_cons, List.countP_cons,
    List.countP_cons]
  cases d with
  | addCollection c =>
    simp [targetsAlterable, addCounts]
  | addColumn c column copy =>
    by_cases hch : (c.handle == hh : Bool) <;>
      simp [targetsAlterable, SchemaDiff.collection, hch, addCounts,
        diffContribution, Nat.add_comm]
  | alterColumn c column ty =>
    by_cases hch : (c.handle == hh : Bool) <;>
      simp [targetsAlterable, SchemaDiff.collection, hch, addCounts,
        diffContribution, Nat.add_comm]
  | dropColumn c column =>
    by_cases hch : (c.handle == hh : Bool) <;>
      simp [targetsAlterable, SchemaDiff.collection, hch, addCounts,
        diffContribution, Nat.add_comm]
  | addIndex c index =>
    by_cases hch : (c.handle == hh : Bool) <;>
      simp [targetsAlterable, SchemaDiff.collection, hch, addCounts,
        diffContribution, Nat.add_comm]
  | dropIndex c index =>
    by_cases hch : (c.handle == hh : Bool) <;>
      simp [targetsAlterable, SchemaDiff.collection, hch, addCounts,
        diffContribution, Nat.add_comm]

theorem migLoop_effects (i : Bool) :
    ∀ (diffs : List SchemaDiff) (st st' : MigState),
      st.muteNewColumn = [] →
      migLoop i st diffs = .ok st' →
      st'.muteNewColumn = [] ∧
      st'.createCollections.length =
        st.createCollections.length + (diffs.filter isAddCollectionDiff).length ∧
      (∀ hh, ((stateAlterCounts st' hh).getD (0, 0, 0, 0, 0) =
          addCounts ((stateAlterCounts st hh).getD (0, 0, 0, 0, 0))
            (diffCountsAt diffs hh)) ∧
        (stateAlterCounts st' hh = none ↔
          (stateAlterCounts st hh = none ∧
            diffs.all (fun d => !targetsAlterable hh d)))) ∧
      ((st.alterCollections.map Prod.fst).Nodup →
        (st'.alterCollections.map Prod.fst).Nodup) ∧
      ((∀ p ∈ st.alterCollections, (p.2 : AlterCollectionQuery).handle = p.1) →
        ∀ p ∈ st'.alterCollections, (p.2 : AlterCollectionQuery).handle = p.1) := by
  intro diffs
  induction diffs with
  | nil =>
    intro st st' hmute h
    simp only [migLoop, Except.ok.injEq] at h
    subst h
    refine ⟨hmute, by simp, ?_, fun hnd => hnd, fun hall => hall⟩
    intro hh
    refine ⟨?_, ?_⟩
    · rw [show diffCountsAt [] hh = (0, 0, 0, 0, 0) from rfl, addCounts_zero_right]
    · simp
  | cons d rest ih =>
    intro st st' hmute h
    unfold migLoop at h
    cases hstep : migStep i st d with
    | error e => rw [hstep] at h; exact Except.noConfusion h
    | ok st₁ =>
      rw [hstep] at h
      obtain ⟨hm₁, hlen₁, hcnt₁, hnd₁, hall₁⟩ := migStep_effects i st st₁ d hmute hstep
      obtain ⟨hm', hlen', hcnt', hnd', hall'⟩ := ih st₁ st' hm₁ h
      refine ⟨hm', ?_, ?_, fun hnd => hnd' (hnd₁ hnd), fun hall => hall' (hall₁ hall)⟩
      · rw [hlen', hlen₁]
        by_cases hadd : isAddCollectionDiff d
        · rw [if_pos hadd]
          simp [List.filter_cons, hadd]
          omega
        · rw [if_neg hadd]
          have : isAddCollectionDiff d = false := by
            cases hx : isAddCollectionDiff d
            · rfl
            · exact absurd hx hadd
          simp [List.filter_cons, this]
      · intro hh
        obtain ⟨hg', hn'⟩ := hcnt' hh
        have hstep' := hcnt₁ hh
        constructor
        · rw [hg', diffCountsAt_cons]
          by_cases htg : targetsAlterable hh d
          · rw [if_pos htg] at hstep' ⊢
            rw [hstep']
            simp only [Option.getD_some]
            rw [addCounts_assoc]
          · rw [if_neg htg] at hstep' ⊢
            rw [hstep', addCounts_zero_left]
        · rw [hn']
          by_cases htg : targetsAlterable hh d
          · rw [if_pos htg] at hstep'
            rw [hstep']
            simp [List.all_cons, htg]
          · rw [if_neg htg] at hstep'
            rw [hstep']
            have htgf : targetsAlterable hh d = false := by
              cases hx : targetsAlterable hh d
              · rfl
              · exact absurd hx htg
            simp [List.all_cons, htgf]

theorem dispatch_filter_create (st : MigState) :
    ((dispatchQueries st).filter MigQuery.isCreate).length =
      st.createCollections.length := by
  unfold dispatchQueries
  rw [List.filter_append]
  have h1 : (st.createCollections.map (fun q => MigQuery.create q)).filter
      MigQuery.isCreate = st.createCollections.map (fun q => MigQuery.create q) := by
    rw [List.filter_eq_self]
    intro a ha
    obtain ⟨q, _, rfl⟩ := List.mem_map.mp ha
    rfl
  have h2 : (st.alterCollections.map (fun p => MigQuery.alter p.2)).filter
      MigQuery.isCreate = [] := by
    rw [List.filter_eq_nil_iff]
    intro a ha
    obtain ⟨p, _, rfl⟩ := List.mem_map.mp ha
    simp [MigQuery.isCreate]
  rw [h1, h2]
  simp

theorem dispatch_filterMap_alter (st : MigState) :
    (dispatchQueries st).filterMap MigQuery.alterQ =
      st.alterCollections.map Prod.snd := by
  unfold dispatchQueries
  rw [List.filterMap_append]
  have h1 : (st.createCollections.map (fun q => MigQuery.create q)).filterMap
      MigQuery.alterQ = [] := by
    rw [List.filterMap_eq_nil_iff]
    intro a ha
    obtain ⟨q, _, rfl⟩ := List.mem_map.mp ha
    rfl
  have h2 : (st.alterCollections.map (fun p => MigQuery.alter p.2)).filterMap
      MigQuery.alterQ = st.alterCollections.map Prod.snd := by
    rw [List.filterMap_map]
    have : (MigQuery.alterQ ∘ fun p : String × AlterCollectionQuery =>
        MigQuery.alter p.2) = some ∘ Prod.snd := by
      funext p
      rfl
    rw [this, List.filterMap_eq_map]
  rw [h1, h2]
  rfl

/-- C8: for every diff list, a successful `executeSchemaMigration` batches
exactly one `CreateCollection` query per `add_collection` diff and at most
one `AlterCollection` query per distinct collection handle, and each
collection's `AlterCollection` query receives exactly the `add_column`,
`alter_column`, `drop_column`, `add_index` and `drop_index` diffs that
target it (an `AlterCollection` query exists for a handle iff some foldable
diff targets it). -/
theorem C8_grouped_queries (i : Bool) (answers : List (Option String))
    (diffs : List SchemaDiff) (qs : List MigQuery)
    (hrun : executeSchemaMigration i answers diffs = .ok qs) :
    (qs.filter MigQuery.isCreate).length =
      (diffs.filter isAddCollectionDiff).length ∧
    ((qs.filterMap MigQuery.alterQ).map AlterCollectionQuery.handle).Nodup ∧
    ∀ hh, (((alterQueryFor qs hh).map opCounts).getD (0, 0, 0, 0, 0) =
        diffCountsAt diffs hh ∧
      (alterQueryFor qs hh = none ↔
        diffs.all (fun d => !targetsAlterable hh d))) := by
  unfold executeSchemaMigration at hrun
  cases hloop : migLoop i (initState answers) diffs with
  | error e => rw [hloop] at hrun; exact Except.noConfusion hrun
  | ok st =>
    rw [hloop] at hrun
    simp only [Except.ok.injEq] at hrun
    subst hrun
    obtain ⟨_, hlen, hcnt, hnd, hall⟩ :=
      migLoop_effects i diffs (initState answers) st rfl hloop
    have hndSt := hnd (by simp [initState])
    have hallSt := hall (by simp [initState])
    refine ⟨?_, ?_, ?_⟩
    · rw [dispatch_filter_create, hlen]
      simp [initState]
    · rw [dispatch_filterMap_alter]
      have hmm : (st.alterCollections.map Prod.snd).map AlterCollectionQuery.handle =
          st.alterCollections.map Prod.fst := by
        rw [List.map_map]
        apply List.map_congr_left
        intro p hp
        exact hallSt p hp
      rw [hmm]
      exact hndSt
    · intro hh
      have hfind : alterQueryFor (dispatchQueries st) hh =
          mapGet st.alterCollections hh := by
        unfold alterQueryFor
        rw [dispatch_filterMap_alter]
        exact values_find_eq_mapGet hh st.alterCollections hallSt
      obtain ⟨hg, hn⟩ := hcnt hh
      have hinit : stateAlterCounts (initState answers) hh = none := rfl
      constructor
      · rw [hfind]
        rw [show (mapGet st.alterCollections hh).map opCounts =
          stateAlterCounts st hh from rfl]
        rw [hg, hinit]
        exact addCounts_zero_left _
      · rw [hfind]
        have hmap : mapGet st.alterCollections hh = none ↔
            stateAlterCounts st hh = none := by
          unfold stateAlterCounts
          cases mapGet st.alterCollections hh <;> simp
        rw [hmap, hn, hinit]
        simp

/-- Witness for C8 at a concrete input: one `add_collection` plus an
`add_column` (empty copy list) and a `drop_index` against `Author` yield one
`CreateCollection` and one folded `AlterCollection`, whose group sizes match
the per-collection diff tallies. -/
theorem C8_grouped_queries_witness :
    executeSchemaMigration false []
      [.addCollection ⟨"Post", [⟨"title", "text"⟩], []⟩,
       .addColumn ⟨"Author", [], []⟩ ⟨"name", "text"⟩ [],
       .dropIndex ⟨"Author", [], []⟩ ⟨"Author_idx", "index", []⟩] =
      .ok [.create ⟨"Post", [⟨"title", .Text⟩], []⟩,
        .alter ⟨"Author", [(⟨"name", .Text⟩, none)], [], [], [], ["Author_idx"]⟩] ∧
    ((alterQueryFor
        [.create ⟨"Post", [⟨"title", .Text⟩], []⟩,
         .alter ⟨"Author", [(⟨"name", .Text⟩, none)], [], [], [], ["Author_idx"]⟩]
        "Author").map opCounts).getD (0, 0, 0, 0, 0) =
      diffCountsAt
        [.addCollection ⟨"Post", [⟨"title", "text"⟩], []⟩,
         .addColumn ⟨"Author", [], []⟩ ⟨"name", "text"⟩ [],
         .dropIndex ⟨"Author", [], []⟩ ⟨"Author_idx", "index", []⟩] "Author" := by
  constructor
  · rfl
  · exact ((C8_grouped_queries false []
      [.addCollection ⟨"Post", [⟨"title", "text"⟩], []⟩,
       .addColumn ⟨"Author", [], []⟩ ⟨"name", "text"⟩ [],
       .dropIndex ⟨"Author", [], []⟩ ⟨"Author_idx", "index", []⟩]
      [.create ⟨"Post", [⟨"title", .Text⟩], []⟩,
       .alter ⟨"Author", [(⟨"name", .Text⟩, none)], [], [], [], ["Author_idx"]⟩]
      rfl).2.2 "Author").1

theorem migStep_abort (st : MigState) (d : SchemaDiff)
    (hprompt : promptsOn st d = true)
    (habort : abortAnswer st.answers.head? = true) :
    migStep true st d = .error "User aborted migration." := by
  cases d with
  | addColumn coll column copy =>
    have hcopy : copy.isEmpty = false := by
      simp only [promptsOn, Bool.and_eq_true] at hprompt
      simpa using hprompt.1
    have hcont : st.muteNewColumn.contains (coll.handle ++ "." ++ column.handle) =
        false := by
      simp only [promptsOn, Bool.and_eq_true] at hprompt
      simpa using hprompt.2
    simp only [migStep, hcont, hcopy, Bool.false_eq_true, if_false, if_true]
    rcases hans : st.answers with _ | ⟨_ | sa, rest⟩
    · rfl
    · rfl
    · rw [hans] at habort
      simp only [List.head?, abortAnswer] at habort
      simp only [habort, if_true]
  | dropColumn coll column =>
    simp only [migStep, if_true]
    rcases hans : st.answers with _ | ⟨_ | sa, rest⟩
    · rfl
    · rfl
    · rw [hans] at habort
      simp only [List.head?, abortAnswer] at habort
      simp only [habort, if_true]
  | addCollection coll => simp [promptsOn] at hprompt
  | alterColumn coll column ty => simp [promptsOn] at hprompt
  | addIndex coll index => simp [promptsOn] at hprompt
  | dropIndex coll index => simp [promptsOn] at hprompt

/-- C4: if an interactive decision aborts (the collaborator returns the
`abort` key, the prompt throws, or the collaborator is exhausted), the
migration throws the migration-aborted error — and since the batched queries
are dispatched only after the whole loop succeeds, none of them is executed:
a successful loop is exactly what dispatching requires. -/
theorem C4_abort_before_dispatch (answers : List (Option String))
    (pre post : List SchemaDiff) (d : SchemaDiff) (st : MigState)
    (hpre : migLoop true (initState answers) pre = .ok st)
    (hprompt : promptsOn st d = true)
    (habort : abortAnswer st.answers.head? = true) :
    executeSchemaMigration true answers (pre ++ d :: post) =
      .error "User aborted migration." ∧
    (∀ (answers' : List (Option String)) (diffs' : List SchemaDiff)
      (st' : MigState),
      migLoop true (initState answers') diffs' = .ok st' →
      executeSchemaMigration true answers' diffs' = .ok (dispatchQueries st')) := by
  constructor
  · unfold executeSchemaMigration
    rw [migLoop_append true pre (d :: post) (initState answers), hpre]
    have hstep := migStep_abort st d hprompt habort
    unfold migLoop
    rw [hstep]
  · intro answers' diffs' st' hloop
    unfold executeSchemaMigration
    rw [hloop]

/-- Witness for C4 at a concrete input: the collaborator answers `abort` to
the drop confirmation, the migration throws and dispatches nothing. -/
theorem C4_abort_before_dispatch_witness :
    executeSchemaMigration true [some "abort"]
      ([] ++ SchemaDiff.dropColumn ⟨"Post", [], []⟩ ⟨"title", "text"⟩ :: []) =
      .error "User aborted migration." :=
  (C4_abort_before_dispatch [some "abort"] [] []
    (.dropColumn ⟨"Post", [], []⟩ ⟨"title", "text"⟩)
    (initState [some "abort"]) rfl (by decide) (by decide)).1

/-- C10: in non-interactive mode (no stdin/stdout), any `drop_column` diff —
and any `add_column` diff with a nonempty copy-candidate list — makes the
whole migration throw before any query is dispatched, while an `add_column`
diff with an empty copy-candidate list is processed without consuming any
collaborator answer: the column is added with no copy source. -/
theorem C10_non_interactive_behaviour (answers : List (Option String)) :
    (∀ (pre post : List SchemaDiff) (coll : SchemaDescription)
      (column : SchemaDescriptionColumn) (st : MigState),
      migLoop false (initState answers) pre = .ok st →
      executeSchemaMigration false answers
          (pre ++ .dropColumn coll column :: post) =
        .error "Schema has some new deletions that requires your intervention. Please use a TTY terminal.") ∧
    (∀ (pre post : List SchemaDiff) (coll : SchemaDescription)
      (column : SchemaDescriptionColumn) (copy : List String) (st : MigState),
      migLoop false (initState answers) pre = .ok st →
      copy ≠ [] →
      executeSchemaMigration false answers
          (pre ++ .addColumn coll column copy :: post) =
        .error "Schema has some new additions that requires your intervention. Please use a TTY terminal.") ∧
    (∀ (st : MigState) (coll : SchemaDescription)
      (column : SchemaDescriptionColumn) (t : ColumnType),
      st.muteNewColumn = [] →
      mapStringToColumnType column.type = .ok t →
      migStep false st (.addColumn coll column []) =
        .ok { st with
          alterCollections :=
            mapSet (ensureAlter st.alterCollections coll.handle) coll.handle
              ((getAlter (ensureAlter st.alterCollections coll.handle)
                coll.handle).addColumn ⟨column.handle, t⟩ none) }) := by
  refine ⟨?_, ?_, ?_⟩
  · intro pre post coll column st hpre
    unfold executeSchemaMigration
    rw [migLoop_append false pre (_ :: post) (initState answers), hpre]
    unfold migLoop
    rw [show migStep false st (.dropColumn coll column) =
      .error "Schema has some new deletions that requires your intervention. Please use a TTY terminal." from rfl]
  · intro pre post coll column copy st hpre hcopy
    unfold executeSchemaMigration
    rw [migLoop_append false pre (_ :: post) (initState answers), hpre]
    have hmute : st.muteNewColumn = [] :=
      (migLoop_effects false pre (initState answers) st rfl hpre).1
    have hstep : migStep false st (.addColumn coll column copy) =
        .error "Schema has some new additions that requires your intervention. Please use a TTY terminal." := by
      have hne : copy.isEmpty = false := by
        cases copy
        · exact absurd rfl hcopy
        · rfl
      simp only [migStep, hmute, List.contains_nil, Bool.false_eq_true, if_false, hne]
    unfold migLoop
    rw [hstep]
  · intro st coll column t hmute ht
    simp only [migStep, hmute, ht, List.contains_nil, Bool.false_eq_true, if_false,
      List.isEmpty_nil, if_true]

/-- Witness for C10 at concrete inputs: a `drop_column` diff without a TTY
aborts, an `add_column` with candidates aborts, and an `add_column` with an
empty candidate list is folded silently. -/
theorem C10_non_interactive_behaviour_witness :
    executeSchemaMigration false []
        ([] ++ SchemaDiff.dropColumn ⟨"Post", [], []⟩ ⟨"title", "text"⟩ :: []) =
      .error "Schema has some new deletions that requires your intervention. Please use a TTY terminal." ∧
    executeSchemaMigration false []
        ([] ++ SchemaDiff.addColumn ⟨"Post", [], []⟩ ⟨"summary", "text"⟩
          ["title"] :: []) =
      .error "Schema has some new additions that requires your intervention. Please use a TTY terminal." ∧
    migStep false (initState []) (.addColumn ⟨"Post", [], []⟩ ⟨"summary", "text"⟩ []) =
      .ok { initState [] with
        alterCollections :=
          mapSet (ensureAlter (initState []).alterCollections "Post") "Post"
            ((getAlter (ensureAlter (initState []).alterCollections "Post")
              "Post").addColumn ⟨"summary", .Text⟩ none) } :=
  ⟨((C10_non_interactive_behaviour []).1 [] [] ⟨"Post", [], []⟩
      ⟨"title", "text"⟩ (initState []) rfl),
   ((C10_non_interactive_behaviour []).2.1 [] [] ⟨"Post", [], []⟩
      ⟨"summary", "text"⟩ ["title"] (initState []) rfl (by decide)),
   ((C10_non_interactive_behaviour []).2.2 (initState []) ⟨"Post", [], []⟩
      ⟨"summary", "text"⟩ .Text rfl rfl)⟩

end Konstellio
